import Mathlib

/-!
# Pendulum clock renderer (`main.cpp`): meshes, motion model, orbit controller

A shallow embedding of the pure parts of `main.cpp`:

* the static meshes `boxVertices` / `boxIndices` and `rectVertices` / `rectIndices`,
* the procedural generator `createDisk`,
* the pendulum angle of `getPendulumAngle`,
* the pointer callbacks `mouse_button_callback` and `cursor_position_callback`.

Number model.  The meshes, the generator and the clamp invariant are stated over an exact
field `F` (the rationals when a definition is evaluated): they only compare, count and copy
floating-point values.  Where the value of a `float` computation matters (the accumulated
drag, the pendulum angle) every operation is the exact one followed by a rounding
(`FloatArith`), with IEEE 754 round-to-nearest-even as the instance `ieee`; the exponent
range is unbounded, so overflow, subnormals, infinities and NaN are outside the model.  The
library functions `glm::pi`, `cos`, `sin` are a parameter (`FloatMath`).  A C++ `int` is a
Lean `Int`; a value stored into an `unsigned int` is reduced modulo `2^32` (`toUInt`).
-/

namespace ClockModel

/-! ## Numbers -/

/-- The floating-point library used by `main.cpp`: `glm::pi<float>()`, `cos`, `sin`. -/
structure FloatMath (F : Type) where
  /-- The constant `glm::pi<float>()`. -/
  pi : F
  /-- The function `cos`. -/
  cos : F → F
  /-- The function `sin`. -/
  sin : F → F

/-- Conversion of an integer value to `unsigned int`: reduction modulo `2^32`. -/
def toUInt (x : Int) : Nat := (x % 4294967296).toNat

/-- The values taken by the counter of `for (int i = lo; i < hi; i++)`, in order. -/
def intRange (lo hi : Int) : List Int :=
  List.map (fun (k : Nat) => lo + (k : Int)) (List.range (hi - lo).toNat)

/-! ## The disk generator -/

/-- The two global vectors filled by `createDisk`: `diskVertices` (six floats per vertex:
position, then normal) and `diskIndices`. -/
structure DiskMesh (F : Type) where
  /-- The vector `diskVertices`. -/
  diskVertices : List F
  /-- The vector `diskIndices`. -/
  diskIndices : List Nat
deriving DecidableEq

/-- The function `createDisk(radius, thickness, segments)`.  Both vectors are cleared first,
so the result does not depend on their previous contents; every `push_back` appends.
The loops `for (int i = 0; i <= segments; i++)` run over `intRange 0 (segments + 1)`.
Integer expressions are evaluated in `Int` and reduced modulo `2^32` where they are stored
as `unsigned int`.  At `segments = 0` the quotient `float(i) / float(segments)` is `0 / 0`
(a NaN in C++, `0` in a field); only sizes and indices are stated there. -/
def createDisk {F : Type} [Field F] (m : FloatMath F) (radius thickness : F)
    (segments : Int) : DiskMesh F :=
  let v0 : List F := [0, 0, thickness * 0.5, 0, 0, 1]
  let v1 : List F := (intRange 0 (segments + 1)).foldl (fun (vs : List F) (i : Int) =>
    let angle : F := 2 * m.pi * (i : F) / (segments : F)
    let x : F := radius * m.cos angle
    let y : F := radius * m.sin angle
    vs ++ [x, y, thickness * 0.5, 0, 0, 1]) v0
  let baseCenterIndex : Nat := (v1.length / 6) % 4294967296
  let v2 : List F := v1 ++ [0, 0, -thickness * 0.5, 0, 0, -1]
  let v3 : List F := (intRange 0 (segments + 1)).foldl (fun (vs : List F) (i : Int) =>
    let angle : F := 2 * m.pi * (i : F) / (segments : F)
    let x : F := radius * m.cos angle
    let y : F := radius * m.sin angle
    vs ++ [x, y, -thickness * 0.5, 0, 0, -1]) v2
  let i1 : List Nat := (intRange 1 (segments + 1)).foldl (fun (is : List Nat) (i : Int) =>
    is ++ [0, toUInt i, toUInt (i + 1)]) []
  let i2 : List Nat := (intRange 1 (segments + 1)).foldl (fun (is : List Nat) (i : Int) =>
    is ++ [baseCenterIndex, toUInt ((baseCenterIndex : Int) + i + 1),
           toUInt ((baseCenterIndex : Int) + i)]) i1
  let topStart : Int := 1
  let bottomStart : Int := (baseCenterIndex : Int) + 1
  let i3 : List Nat := (intRange 0 segments).foldl (fun (is : List Nat) (i : Int) =>
    let next : Int := (i + 1).tmod segments
    is ++ [toUInt (topStart + i), toUInt (bottomStart + i), toUInt (bottomStart + next),
           toUInt (topStart + i), toUInt (bottomStart + next), toUInt (topStart + next)]) i2
  { diskVertices := v3, diskIndices := i3 }

/-! ## The static meshes -/

/-- The array `boxVertices`: 24 vertices, six floats each (position, then normal). -/
def boxVertices : List ℚ := [
  -0.5, -1.0,  0.3,   0.0, 0.0, 1.0,
   0.5, -1.0,  0.3,   0.0, 0.0, 1.0,
   0.5,  0.8,  0.3,   0.0, 0.0, 1.0,
  -0.5,  0.8,  0.3,   0.0, 0.0, 1.0,

  -0.5, -1.0, -0.3,   0.0, 0.0,-1.0,
   0.5, -1.0, -0.3,   0.0, 0.0,-1.0,
   0.5,  0.8, -0.3,   0.0, 0.0,-1.0,
  -0.5,  0.8, -0.3,   0.0, 0.0,-1.0,

  -0.5,  0.8, -0.3,  -1.0, 0.0, 0.0,
  -0.5,  0.8,  0.3,  -1.0, 0.0, 0.0,
  -0.5, -1.0,  0.3,  -1.0, 0.0, 0.0,
  -0.5, -1.0, -0.3,  -1.0, 0.0, 0.0,

   0.5,  0.8, -0.3,   1.0, 0.0, 0.0,
   0.5,  0.8,  0.3,   1.0, 0.0, 0.0,
   0.5, -1.0,  0.3,   1.0, 0.0, 0.0,
   0.5, -1.0, -0.3,   1.0, 0.0, 0.0,

  -0.5,  0.8,  0.3,   0.0, 1.0, 0.0,
   0.5,  0.8,  0.3,   0.0, 1.0, 0.0,
   0.5,  0.8, -0.3,   0.0, 1.0, 0.0,
  -0.5,  0.8, -0.3,   0.0, 1.0, 0.0,

  -0.5, -1.0,  0.3,   0.0,-1.0, 0.0,
   0.5, -1.0,  0.3,   0.0,-1.0, 0.0,
   0.5, -1.0, -0.3,   0.0,-1.0, 0.0,
  -0.5, -1.0, -0.3,   0.0,-1.0, 0.0]

/-- The array `boxIndices`. -/
def boxIndices : List Nat := [
  0,1,2, 2,3,0,
  4,5,6, 6,7,4,
  8,9,10, 10,11,8,
  12,13,14, 14,15,12,
  16,17,18, 18,19,16,
  20,21,22, 22,23,20]

/-- The array `rectVertices`: 4 vertices, six floats each (position, then normal). -/
def rectVertices : List ℚ := [
  -0.04,  0.2, 0,  0,0,1,
   0.04,  0.2, 0,  0,0,1,
   0.04, -0.2, 0,  0,0,1,
  -0.04, -0.2, 0,  0,0,1]

/-- The array `rectIndices`. -/
def rectIndices : List Nat := [0,1,2, 2,3,0]

/-- The position of vertex `v` in a vertex array: attribute 0 of `glVertexAttribPointer`,
three floats at offset 0 of a six-float stride. -/
def vertexPos (vs : List ℚ) (v : Nat) : ℚ × ℚ × ℚ :=
  (vs.getD (6 * v) 0, vs.getD (6 * v + 1) 0, vs.getD (6 * v + 2) 0)

/-- The normal of vertex `v` in a vertex array: attribute 1 of `glVertexAttribPointer`,
three floats at offset 3 of a six-float stride. -/
def vertexNormal (vs : List ℚ) (v : Nat) : ℚ × ℚ × ℚ :=
  (vs.getD (6 * v + 3) 0, vs.getD (6 * v + 4) 0, vs.getD (6 * v + 5) 0)

/-- The index triples drawn by `glDrawElements(GL_TRIANGLES, ...)`: consecutive groups of
three indices. -/
def triangles : List Nat → List (Nat × Nat × Nat)
  | a :: b :: c :: rest => (a, b, c) :: triangles rest
  | _ => []

/-- The difference of two vectors. -/
def vsub (p q : ℚ × ℚ × ℚ) : ℚ × ℚ × ℚ := (p.1 - q.1, p.2.1 - q.2.1, p.2.2 - q.2.2)

/-- The cross product. -/
def cross (p q : ℚ × ℚ × ℚ) : ℚ × ℚ × ℚ :=
  (p.2.1 * q.2.2 - p.2.2 * q.2.1, p.2.2 * q.1 - p.1 * q.2.2, p.1 * q.2.1 - p.2.1 * q.1)

/-- The dot product. -/
def dot (p q : ℚ × ℚ × ℚ) : ℚ := p.1 * q.1 + p.2.1 * q.2.1 + p.2.2 * q.2.2

/-- The winding of triangle `(a, b, c)` against a normal `n`:
`((pos b - pos a) × (pos c - pos a)) · n`, positive when the triangle is counter-clockwise
seen from the side `n` points to. -/
def windingDot (vs : List ℚ) (t : Nat × Nat × Nat) (n : ℚ × ℚ × ℚ) : ℚ :=
  dot (cross (vsub (vertexPos vs t.2.1) (vertexPos vs t.1))
    (vsub (vertexPos vs t.2.2) (vertexPos vs t.1))) n

/-- The normals of the six box faces, in the order of `boxVertices`:
`+Z`, `-Z`, `-X`, `+X`, `+Y`, `-Y`. -/
def boxFaceNormals : List (ℚ × ℚ × ℚ) :=
  [(0, 0, 1), (0, 0, -1), (-1, 0, 0), (1, 0, 0), (0, 1, 0), (0, -1, 0)]

/-- The index list of the disk as the specification words it (steps 5 to 7 of the disk
generator), with `B = baseCenterIndex = segments + 2`: the front fan `(0, i, i+1)` and the
back fan `(B, B+i+1, B+i)` for `i = 1..segments`, then for `i = 0..segments-1`, with
`next = (i+1) mod segments`, the side triangles `(1+i, B+1+i, B+1+next)` and
`(1+i, B+1+next, 1+next)`. -/
def specDiskIndices (segments : Nat) : List Nat :=
  (List.range' 1 segments).flatMap (fun i => [0, i, i + 1])
    ++ (List.range' 1 segments).flatMap (fun i =>
        [segments + 2, segments + 2 + i + 1, segments + 2 + i])
    ++ (List.range segments).flatMap (fun i =>
        [1 + i, segments + 2 + 1 + i, segments + 2 + 1 + (i + 1) % segments,
         1 + i, segments + 2 + 1 + (i + 1) % segments, 1 + (i + 1) % segments])

/-! ## The orbit controller -/

/-- The globals `mousePressed`, `lastMouseX`, `lastMouseY`, `rotationX`, `rotationY`. -/
structure OrbitState (F : Type) where
  /-- The global `mousePressed`. -/
  mousePressed : Bool
  /-- The global `lastMouseX`. -/
  lastMouseX : F
  /-- The global `lastMouseY`. -/
  lastMouseY : F
  /-- The global `rotationX`. -/
  rotationX : F
  /-- The global `rotationY`. -/
  rotationY : F
deriving DecidableEq

/-- The GLFW constant `GLFW_MOUSE_BUTTON_LEFT`. -/
def GLFW_MOUSE_BUTTON_LEFT : Int := 0

/-- The GLFW constant `GLFW_PRESS`. -/
def GLFW_PRESS : Int := 1

/-- The GLFW constant `GLFW_RELEASE`. -/
def GLFW_RELEASE : Int := 0

/-- The globals at program start: `mousePressed = false`, `rotationX = rotationY = 0`, and
the zero-initialised `lastMouseX`, `lastMouseY`. -/
def initialOrbit {F : Type} [Field F] : OrbitState F :=
  { mousePressed := false, lastMouseX := 0, lastMouseY := 0, rotationX := 0, rotationY := 0 }

/-- The function `mouse_button_callback`; `cursorX`, `cursorY` are the coordinates that
`glfwGetCursorPos` writes. -/
def mouse_button_callback {F : Type} (s : OrbitState F) (button action _mods : Int)
    (cursorX cursorY : F) : OrbitState F :=
  if button = GLFW_MOUSE_BUTTON_LEFT then
    if action = GLFW_PRESS then
      { s with mousePressed := true, lastMouseX := cursorX, lastMouseY := cursorY }
    else if action = GLFW_RELEASE then
      { s with mousePressed := false }
    else s
  else s

/-- The function `cursor_position_callback`. -/
def cursor_position_callback {F : Type} [LinearOrderedField F] (s : OrbitState F)
    (xpos ypos : F) : OrbitState F :=
  if s.mousePressed then
    let xoffset : F := xpos - s.lastMouseX
    let yoffset : F := ypos - s.lastMouseY
    let sensitivity : F := 0.3
    let rotationY : F := s.rotationY + xoffset * sensitivity
    let rotationX : F := s.rotationX + yoffset * sensitivity
    let rotationX : F := if rotationX > 89.0 then 89.0 else rotationX
    let rotationX : F := if rotationX < -89.0 then -89.0 else rotationX
    { mousePressed := s.mousePressed, lastMouseX := xpos, lastMouseY := ypos,
      rotationX := rotationX, rotationY := rotationY }
  else s

/-- A pointer event delivered by the window system. -/
inductive PointerEvent (F : Type) where
  /-- A mouse-button event, with the cursor position at that moment. -/
  | button (button action mods : Int) (cursorX cursorY : F)
  /-- A cursor-move event. -/
  | move (xpos ypos : F)

/-- Dispatch of one event to its callback. -/
def handleEvent {F : Type} [LinearOrderedField F] (s : OrbitState F) :
    PointerEvent F → OrbitState F
  | .button b a mods cx cy => mouse_button_callback s b a mods cx cy
  | .move x y => cursor_position_callback s x y

/-- The orbit state after a sequence of events. -/
def runEvents {F : Type} [LinearOrderedField F] (s : OrbitState F)
    (events : List (PointerEvent F)) : OrbitState F :=
  events.foldl handleEvent s

/-- The orbit state right after the left button goes down at `(x, y)` in the initial state. -/
def dragStart (x y : ℚ) : OrbitState ℚ :=
  mouse_button_callback initialOrbit GLFW_MOUSE_BUTTON_LEFT GLFW_PRESS 0 x y

/-! ## Rounded arithmetic -/

/-- Rounding to the nearest integer, ties to the even one. -/
def roundNearestEven {F : Type} [LinearOrderedField F] [FloorRing F] (q : F) : Int :=
  if q - (⌊q⌋ : F) < 1 / 2 then ⌊q⌋
  else if 1 / 2 < q - (⌊q⌋ : F) then ⌊q⌋ + 1
  else if ⌊q⌋ % 2 = 0 then ⌊q⌋ else ⌊q⌋ + 1

/-- The unit in the last place of a positive value `a` at `p` significant bits, as an
exponent of two: `floor (log2 a) - (p - 1)`. -/
def ulpExponent {F : Type} [LinearOrderedField F] [FloorRing F] (p : Nat) (a : F) : Int :=
  Int.log 2 a - ((p : Int) - 1)

/-- Rounding of a positive value to `p` significant bits, nearest with ties to even. -/
def roundMagnitude {F : Type} [LinearOrderedField F] [FloorRing F] (p : Nat) (a : F) : F :=
  (roundNearestEven (a / (2 : F) ^ ulpExponent p a) : F) * (2 : F) ^ ulpExponent p a

/-- Rounding to the nearest binary floating-point number with `p` significant bits (24 for
`float`, 53 for `double`), ties to even; the exponent range is unbounded. -/
def roundToPrecision {F : Type} [LinearOrderedField F] [FloorRing F] (p : Nat) (x : F) : F :=
  if x = 0 then 0 else if 0 < x then roundMagnitude p x else -roundMagnitude p (-x)

/-- The floating-point arithmetic of the target: the rounding of an exact result to a
`float` and to a `double`.  Every `float` operation of the source is the exact operation
followed by `toFloat`, every `double` operation the exact one followed by `toDouble`. -/
structure FloatArith (F : Type) where
  /-- Rounding to `float`. -/
  toFloat : F → F
  /-- Rounding to `double`. -/
  toDouble : F → F

/-- IEEE 754 arithmetic: `float` is binary32 (24 significant bits), `double` is binary64
(53 significant bits), both rounding to nearest, ties to even. -/
def ieee {F : Type} [LinearOrderedField F] [FloorRing F] : FloatArith F :=
  { toFloat := roundToPrecision 24, toDouble := roundToPrecision 53 }

/-- Arithmetic without rounding. -/
def exactArith {F : Type} : FloatArith F := { toFloat := id, toDouble := id }

/-- What the statements on rounded arithmetic use of `toFloat`: it is monotone, idempotent
and odd, `89` is a `float`, and on `[-89, 89]` it moves a value by at most `2^-18` (half a
unit in the last place of binary32 below 128). -/
structure FloatArith.Faithful {F : Type} [LinearOrderedField F] (A : FloatArith F) : Prop where
  /-- Rounding is monotone. -/
  mono : Monotone A.toFloat
  /-- A `float` rounds to itself. -/
  idem : ∀ x, A.toFloat (A.toFloat x) = A.toFloat x
  /-- Rounding commutes with negation. -/
  neg : ∀ x, A.toFloat (-x) = -A.toFloat x
  /-- The value `89` is a `float`. -/
  fix89 : A.toFloat 89 = 89
  /-- The rounding error on `[-89, 89]`. -/
  err : ∀ x, |x| ≤ 89 → |A.toFloat x - x| ≤ 1 / 262144

/-- The function `cursor_position_callback` with the rounding of every `double` and `float`
operation made explicit: `xpos - lastMouseX` is a `double` subtraction converted to `float`,
`0.3f` is the `float` nearest to `0.3`, and `rotationX += yoffset * sensitivity` is a `float`
product followed by a `float` sum.  With `exactArith` it is `cursor_position_callback`. -/
def cursor_position_callback_rounded {F : Type} [LinearOrderedField F] (A : FloatArith F)
    (s : OrbitState F) (xpos ypos : F) : OrbitState F :=
  if s.mousePressed then
    let xoffset : F := A.toFloat (A.toDouble (xpos - s.lastMouseX))
    let yoffset : F := A.toFloat (A.toDouble (ypos - s.lastMouseY))
    let sensitivity : F := A.toFloat 0.3
    let rotationY : F := A.toFloat (s.rotationY + A.toFloat (xoffset * sensitivity))
    let rotationX : F := A.toFloat (s.rotationX + A.toFloat (yoffset * sensitivity))
    let rotationX : F := if rotationX > 89.0 then 89.0 else rotationX
    let rotationX : F := if rotationX < -89.0 then -89.0 else rotationX
    { mousePressed := s.mousePressed, lastMouseX := xpos, lastMouseY := ypos,
      rotationX := rotationX, rotationY := rotationY }
  else s

/-- The orbit state after a sequence of cursor-move events `(xpos, ypos)`. -/
def runMoves {F : Type} [LinearOrderedField F] (A : FloatArith F) (s : OrbitState F)
    (moves : List (F × F)) : OrbitState F :=
  moves.foldl (fun (st : OrbitState F) (p : F × F) =>
    cursor_position_callback_rounded A st p.1 p.2) s

/-- The values `yoffset * sensitivity` that a sequence of cursor moves adds to `rotationX`,
as the callback computes them; `lastY` is `lastMouseY` before the first move. -/
def scaledYDeltas {F : Type} [LinearOrderedField F] (A : FloatArith F) (lastY : F) :
    List (F × F) → List F
  | [] => []
  | p :: rest =>
    A.toFloat (A.toFloat (A.toDouble (p.2 - lastY)) * A.toFloat 0.3)
      :: scaledYDeltas A p.2 rest

/-! ## The pendulum angle -/

/-- The value of `baseCenterIndex` in `createDisk`: the number of vertices pushed before
the back centre (`1 + (segments + 1)` when `segments ≥ -1`), as an `unsigned int`. -/
def baseCenterIndexOf (segments : Int) : Nat := (1 + (segments + 1).toNat) % 4294967296

/-- A rational instance of the floating-point library (`355 / 113` for `pi`, truncated
Taylor polynomials for `cos` and `sin`), used to evaluate the generator at concrete
parameters.  The statements on the generator are proved for every `FloatMath`. -/
def ratMath : FloatMath ℚ :=
  { pi := 355 / 113
    cos := fun x => 1 - x ^ 2 / 2 + x ^ 4 / 24 - x ^ 6 / 720
    sin := fun x => x - x ^ 3 / 6 + x ^ 5 / 120 - x ^ 7 / 5040 }

/-! ## Auxiliary facts on the loops -/

theorem foldl_push {α β : Type} (f : β → List α) (l : List β) (init : List α) :
    l.foldl (fun acc i => acc ++ f i) init = init ++ l.flatMap f := by
  induction l generalizing init with
  | nil => simp
  | cons a l ih => simp [ih, List.append_assoc]

theorem length_flatMap_const {α β : Type} (f : β → List α) (c : Nat)
    (h : ∀ i, (f i).length = c) (l : List β) : (l.flatMap f).length = c * l.length := by
  induction l with
  | nil => simp
  | cons a l ih => simp [ih, h, Nat.mul_succ, Nat.add_comm]

theorem length_intRange (lo hi : Int) : (intRange lo hi).length = (hi - lo).toNat := by
  simp [intRange]

theorem mem_intRange {lo hi i : Int} : i ∈ intRange lo hi ↔ lo ≤ i ∧ i < hi := by
  simp only [intRange, List.mem_map, List.mem_range]
  constructor
  · rintro ⟨k, hk, rfl⟩
    omega
  · rintro ⟨h1, h2⟩
    exact ⟨(i - lo).toNat, by omega, by omega⟩

theorem toUInt_le (x : Int) (h0 : 0 ≤ x) : (toUInt x : Int) ≤ x := by
  unfold toUInt
  omega

theorem length_flatMap_six {α β : Type} (f : β → List α) (l : List β)
    (h : ∀ i, (f i).length = 6) : (l.flatMap f).length = 6 * l.length :=
  length_flatMap_const f 6 h l

/-- The number of floats that `createDisk` leaves in `diskVertices`. -/
theorem createDisk_vertices_length {F : Type} [Field F] (m : FloatMath F)
    (radius thickness : F) (segments : Int) :
    (createDisk m radius thickness segments).diskVertices.length
      = 12 + 12 * (segments + 1).toNat := by
  simp only [createDisk, foldl_push, List.length_append]
  rw [length_flatMap_six, length_flatMap_six, length_intRange]
  · simp only [List.length_cons, List.length_nil]
    omega
  · intro i
    rfl
  · intro i
    rfl

/-- The index vector of `createDisk`, loop by loop. -/
theorem createDisk_diskIndices {F : Type} [Field F] (m : FloatMath F)
    (radius thickness : F) (segments : Int) :
    (createDisk m radius thickness segments).diskIndices
      = (intRange 1 (segments + 1)).flatMap (fun i => [0, toUInt i, toUInt (i + 1)])
        ++ (intRange 1 (segments + 1)).flatMap (fun i =>
            [baseCenterIndexOf segments, toUInt ((baseCenterIndexOf segments : Int) + i + 1),
             toUInt ((baseCenterIndexOf segments : Int) + i)])
        ++ (intRange 0 segments).flatMap (fun i =>
            [toUInt (1 + i), toUInt ((baseCenterIndexOf segments : Int) + 1 + i),
             toUInt ((baseCenterIndexOf segments : Int) + 1 + (i + 1).tmod segments),
             toUInt (1 + i),
             toUInt ((baseCenterIndexOf segments : Int) + 1 + (i + 1).tmod segments),
             toUInt (1 + (i + 1).tmod segments)]) := by
  have hB : ((([0, 0, thickness * 0.5, 0, 0, 1] : List F)
      ++ (intRange 0 (segments + 1)).flatMap (fun i =>
        [radius * m.cos (2 * m.pi * (i : F) / (segments : F)),
         radius * m.sin (2 * m.pi * (i : F) / (segments : F)),
         thickness * 0.5, 0, 0, 1])).length / 6) % 4294967296
      = baseCenterIndexOf segments := by
    rw [List.length_append, length_flatMap_six, length_intRange]
    · simp only [List.length_cons, List.length_nil, baseCenterIndexOf]
      congr 1
      omega
    · intro i
      rfl
  simp only [createDisk, foldl_push, List.nil_append, hB]

theorem length_flatMap_three {α β : Type} (f : β → List α) (l : List β)
    (h : ∀ i, (f i).length = 3) : (l.flatMap f).length = 3 * l.length :=
  length_flatMap_const f 3 h l

theorem next_bounds {i segments : Int} (hi : 0 ≤ i) (hs : 0 < segments) :
    0 ≤ (i + 1).tmod segments ∧ (i + 1).tmod segments < segments := by
  rw [Int.tmod_eq_emod (by omega) (by omega)]
  exact ⟨Int.emod_nonneg _ (by omega), Int.emod_lt_of_pos _ hs⟩

/-! ## The disk generator: sizes and index range -/

/-- C1, as amended: for every `segments ≥ 3` and any radius and thickness, `createDisk`
leaves `2 * (segments + 2)` vertices in `diskVertices` (`diskVertices.size() / 6`) and
`12 * segments` indices in `diskIndices`: two fans of `segments` triangles and
`2 * segments` side triangles, three indices each. -/
theorem createDisk_counts {F : Type} [Field F] (m : FloatMath F) (radius thickness : F)
    (segments : Int) (h : 3 ≤ segments) :
    (((createDisk m radius thickness segments).diskVertices.length / 6 : Nat) : Int)
        = 2 * (segments + 2)
      ∧ (((createDisk m radius thickness segments).diskIndices.length : Nat) : Int)
        = 12 * segments := by
  constructor
  · rw [createDisk_vertices_length]
    omega
  · rw [createDisk_diskIndices, List.length_append, List.length_append,
      length_flatMap_three, length_flatMap_three, length_flatMap_six]
    · simp only [length_intRange, Int.sub_zero, Int.add_sub_cancel]
      have h0 : ((segments.toNat : Nat) : Int) = segments := Int.toNat_of_nonneg (by omega)
      generalize segments.toNat = n at h0 ⊢
      omega
    · intro i
      rfl
    · intro i
      rfl
    · intro i
      rfl

/-- The generator at the parameters used by `main`: `createDisk(0.55f, 0.05f, 64)`. -/
theorem createDisk_counts_witness :
    (3 : Int) ≤ 64
      ∧ (((createDisk ratMath 0.55 0.05 64).diskVertices.length / 6 : Nat) : Int)
        = 2 * (64 + 2)
      ∧ (((createDisk ratMath 0.55 0.05 64).diskIndices.length : Nat) : Int) = 12 * 64 :=
  ⟨by decide, createDisk_counts ratMath 0.55 0.05 64 (by decide)⟩

/-- C1 as stated fails at `segments = 3`: the generator leaves 36 indices, not `6 * 3`. -/
theorem createDisk_counts_counterexample :
    (3 : Int) ≤ 3
      ∧ (createDisk ratMath 0.55 0.05 3).diskIndices.length = 36
      ∧ ¬ ((((createDisk ratMath 0.55 0.05 3).diskIndices.length : Nat) : Int) = 6 * 3) := by
  have h : (createDisk ratMath 0.55 0.05 3).diskIndices.length = 36 := by
    rw [createDisk_diskIndices]
    rfl
  rw [h]
  decide

/-- C2: every triangle index of a mesh is below the vertex count of that mesh: for
`segments ≥ 3` every element of `diskIndices` is below `diskVertices.size() / 6`, every
element of `boxIndices` is below 24 (the number of box vertices) and every element of
`rectIndices` is below 4 (the number of rect vertices). -/
theorem mesh_indices_in_range {F : Type} [Field F] (m : FloatMath F) (radius thickness : F)
    (segments : Int) (h : 3 ≤ segments) :
    (∀ idx ∈ (createDisk m radius thickness segments).diskIndices,
        idx < (createDisk m radius thickness segments).diskVertices.length / 6)
      ∧ (boxVertices.length / 6 = 24 ∧ ∀ idx ∈ boxIndices, idx < 24)
      ∧ (rectVertices.length / 6 = 4 ∧ ∀ idx ∈ rectIndices, idx < 4) := by
  refine ⟨?_, ⟨by simp [boxVertices], by decide⟩, ⟨by simp [rectVertices], by decide⟩⟩
  intro idx hidx
  rw [createDisk_vertices_length]
  rw [createDisk_diskIndices] at hidx
  have hB : (baseCenterIndexOf segments : Int) ≤ segments + 2 := by
    unfold baseCenterIndexOf
    omega
  simp only [List.mem_append, List.mem_flatMap, mem_intRange, List.mem_cons,
    List.mem_singleton, List.not_mem_nil, or_false] at hidx
  rcases hidx with (⟨i, ⟨hi1, hi2⟩, hx⟩ | ⟨i, ⟨hi1, hi2⟩, hx⟩) | ⟨i, ⟨hi1, hi2⟩, hx⟩
  · rcases hx with rfl | rfl | rfl
    · omega
    · have := toUInt_le (i) (by omega)
      omega
    · have := toUInt_le (i + 1) (by omega)
      omega
  · rcases hx with rfl | rfl | rfl
    · omega
    · have := toUInt_le ((baseCenterIndexOf segments : Int) + i + 1) (by omega)
      omega
    · have := toUInt_le ((baseCenterIndexOf segments : Int) + i) (by omega)
      omega
  · obtain ⟨hn0, hn1⟩ := next_bounds hi1 (by omega : 0 < segments)
    rcases hx with rfl | rfl | rfl | rfl | rfl | rfl
    · have := toUInt_le (1 + i) (by omega)
      omega
    · have := toUInt_le ((baseCenterIndexOf segments : Int) + 1 + i) (by omega)
      omega
    · have := toUInt_le ((baseCenterIndexOf segments : Int) + 1 + (i + 1).tmod segments) (by omega)
      omega
    · have := toUInt_le (1 + i) (by omega)
      omega
    · have := toUInt_le ((baseCenterIndexOf segments : Int) + 1 + (i + 1).tmod segments) (by omega)
      omega
    · have := toUInt_le (1 + (i + 1).tmod segments) (by omega)
      omega

/-- The index range at the parameters used by `main`: `createDisk(0.55f, 0.05f, 64)`. -/
theorem mesh_indices_in_range_witness :
    (3 : Int) ≤ 64
      ∧ ∀ idx ∈ (createDisk ratMath 0.55 0.05 64).diskIndices,
          idx < (createDisk ratMath 0.55 0.05 64).diskVertices.length / 6 :=
  ⟨by decide, (mesh_indices_in_range ratMath 0.55 0.05 64 (by decide)).1⟩

theorem toUInt_eq (x : Int) (y : Nat) (hx : x = (y : Int)) (hy : y < 4294967296) :
    toUInt x = y := by
  subst hx
  unfold toUInt
  omega

theorem next_eq (k n : Nat) :
    ((k : Int) + 1).tmod (n : Int) = (((k + 1) % n : Nat) : Int) := by
  rw [Int.tmod_eq_emod (by omega) (by omega)]
  push_cast
  rfl

/-! ## The disk generator below three segments -/

theorem createDisk_indices_length {F : Type} [Field F] (m : FloatMath F)
    (radius thickness : F) (segments : Int) :
    (createDisk m radius thickness segments).diskIndices.length = 12 * segments.toNat := by
  rw [createDisk_diskIndices, List.length_append, List.length_append,
    length_flatMap_three, length_flatMap_three, length_flatMap_six]
  · simp only [length_intRange, Int.sub_zero, Int.add_sub_cancel]
    omega
  · intro i
    rfl
  · intro i
    rfl
  · intro i
    rfl

/-- C9, as amended: `createDisk` validates nothing.  For every `segments < 3` it returns a
mesh with `2 + 2 * max 0 (segments + 1)` vertices and `12 * max 0 segments` indices, which
is never the mesh it returns for `segments = 3`. -/
theorem createDisk_below_three {F : Type} [Field F] (m : FloatMath F) (radius thickness : F)
    (segments : Int) (h : segments < 3) :
    (createDisk m radius thickness segments).diskVertices.length / 6
        = 2 + 2 * (segments + 1).toNat
      ∧ (createDisk m radius thickness segments).diskIndices.length = 12 * segments.toNat
      ∧ createDisk m radius thickness segments ≠ createDisk m radius thickness 3 := by
  refine ⟨?_, createDisk_indices_length m radius thickness segments, ?_⟩
  · rw [createDisk_vertices_length]
    omega
  · intro heq
    have h1 := createDisk_indices_length m radius thickness segments
    have h2 := createDisk_indices_length m radius thickness 3
    rw [heq] at h1
    rw [h1] at h2
    have h3 : (3 : Int).toNat = 3 := rfl
    rw [h3] at h2
    omega

/-- The generator at `segments = 2`: 8 vertices and 24 indices. -/
theorem createDisk_below_three_witness :
    (2 : Int) < 3
      ∧ (createDisk ratMath 0.55 0.05 2).diskVertices.length / 6 = 2 + 2 * ((2 : Int) + 1).toNat
      ∧ (createDisk ratMath 0.55 0.05 2).diskIndices.length = 12 * (2 : Int).toNat
      ∧ createDisk ratMath 0.55 0.05 2 ≠ createDisk ratMath 0.55 0.05 3 :=
  ⟨by decide, createDisk_below_three ratMath 0.55 0.05 2 (by decide)⟩

/-- C9 as stated fails at `segments = 2` and at `segments = 0`: the generator returns a mesh
(two flat fans of collinear rim points; two bare rim points with no triangle) that is not
the mesh of `segments = 3`. -/
theorem createDisk_below_three_counterexample :
    ((2 : Int) < 3
        ∧ (createDisk ratMath 0.55 0.05 2).diskIndices
          = [0, 1, 2, 0, 2, 3, 4, 6, 5, 4, 7, 6, 1, 5, 6, 1, 6, 2, 2, 6, 5, 2, 5, 1]
        ∧ (createDisk ratMath 0.55 0.05 2).diskVertices.length / 6 = 8
        ∧ createDisk ratMath 0.55 0.05 2 ≠ createDisk ratMath 0.55 0.05 3)
      ∧ ((0 : Int) < 3
        ∧ (createDisk ratMath 0.55 0.05 0).diskIndices = []
        ∧ (createDisk ratMath 0.55 0.05 0).diskVertices.length / 6 = 4
        ∧ createDisk ratMath 0.55 0.05 0 ≠ createDisk ratMath 0.55 0.05 3) := by
  have i2 : (createDisk ratMath 0.55 0.05 2).diskIndices
      = [0, 1, 2, 0, 2, 3, 4, 6, 5, 4, 7, 6, 1, 5, 6, 1, 6, 2, 2, 6, 5, 2, 5, 1] := by
    rw [createDisk_diskIndices]
    decide
  have i0 : (createDisk ratMath 0.55 0.05 0).diskIndices = [] := by
    rw [createDisk_diskIndices]
    decide
  have i3 : (createDisk ratMath 0.55 0.05 3).diskIndices.length = 36 := by
    rw [createDisk_indices_length]
    rfl
  have v2 : (createDisk ratMath 0.55 0.05 2).diskVertices.length / 6 = 8 := by
    rw [createDisk_vertices_length]
    rfl
  have v0 : (createDisk ratMath 0.55 0.05 0).diskVertices.length / 6 = 4 := by
    rw [createDisk_vertices_length]
    rfl
  refine ⟨⟨by decide, i2, v2, ?_⟩, ⟨by decide, i0, v0, ?_⟩⟩
  · intro heq
    rw [← heq, i2] at i3
    exact absurd i3 (by decide)
  · intro heq
    rw [← heq, i0] at i3
    exact absurd i3 (by decide)

/-! ## The disk generator: the index list -/

/-- C10: for every `segments ≥ 3` (an `int` below `INT_MAX`, the values for which the loop
counters do not overflow) the index list built by `createDisk` is the concatenation of the
front fan `(0, i, i+1)`, `i = 1..segments`, the back fan `(B, B+i+1, B+i)`, `i = 1..segments`,
`B = segments + 2`, and the side triangles `(1+i, B+1+i, B+1+next)`, `(1+i, B+1+next, 1+next)`
for `i = 0..segments-1`, `next = (i+1) mod segments`. -/
theorem createDisk_indices_spec {F : Type} [Field F] (m : FloatMath F) (radius thickness : F)
    (segments : Int) (h3 : 3 ≤ segments) (hmax : segments < 2147483647) :
    (createDisk m radius thickness segments).diskIndices = specDiskIndices segments.toNat := by
  obtain ⟨n, rfl⟩ := Int.eq_ofNat_of_zero_le (by omega : 0 ≤ segments)
  have hB : baseCenterIndexOf (n : Int) = n + 2 := by
    unfold baseCenterIndexOf
    omega
  have hn : n < 2147483647 := by omega
  rw [createDisk_diskIndices, hB]
  simp only [specDiskIndices, intRange, List.range'_eq_map_range, List.flatMap_map,
    Int.toNat_ofNat, Int.sub_zero, Int.add_sub_cancel]
  congr 1
  · congr 1
    · apply List.flatMap_congr
      intro k hk
      have hk1 : k < n := List.mem_range.mp hk
      rw [toUInt_eq (1 + (k : Int)) (1 + k) (by push_cast; rfl) (by omega),
        toUInt_eq (1 + (k : Int) + 1) (1 + k + 1) (by push_cast; rfl) (by omega)]
    · apply List.flatMap_congr
      intro k hk
      have hk1 : k < n := List.mem_range.mp hk
      rw [toUInt_eq (((n + 2 : Nat) : Int) + (1 + (k : Int)) + 1) (n + 2 + (1 + k) + 1)
          (by push_cast; rfl) (by omega),
        toUInt_eq (((n + 2 : Nat) : Int) + (1 + (k : Int))) (n + 2 + (1 + k))
          (by push_cast; rfl) (by omega)]
  · apply List.flatMap_congr
    intro k hk
    have hk1 : k < n := List.mem_range.mp hk
    have hlt : (k + 1) % n < n := Nat.mod_lt _ (by omega)
    simp only [Function.comp_apply, Int.zero_add, next_eq]
    rw [toUInt_eq (1 + (k : Int)) (1 + k) (by push_cast; rfl) (by omega),
      toUInt_eq (((n + 2 : Nat) : Int) + 1 + (k : Int)) (n + 2 + 1 + k)
        (by push_cast; rfl) (by omega),
      toUInt_eq (((n + 2 : Nat) : Int) + 1 + (((k + 1) % n : Nat) : Int))
        (n + 2 + 1 + (k + 1) % n) (by push_cast; rfl) (by omega),
      toUInt_eq (1 + (((k + 1) % n : Nat) : Int)) (1 + (k + 1) % n)
        (by push_cast; rfl) (by omega)]

/-- The index list at the parameters used by `main`: `createDisk(0.55f, 0.05f, 64)`. -/
theorem createDisk_indices_spec_witness :
    (3 : Int) ≤ 64 ∧ (64 : Int) < 2147483647
      ∧ (createDisk ratMath 0.55 0.05 64).diskIndices = specDiskIndices (64 : Int).toNat :=
  ⟨by decide, by decide, createDisk_indices_spec ratMath 0.55 0.05 64 (by decide) (by decide)⟩

/-! ## The orbit controller: clamping -/

theorem cursor_rotationX_bounds {F : Type} [LinearOrderedField F] (s : OrbitState F)
    (xpos ypos : F) (h : -89 ≤ s.rotationX ∧ s.rotationX ≤ 89) :
    -89 ≤ (cursor_position_callback s xpos ypos).rotationX
      ∧ (cursor_position_callback s xpos ypos).rotationX ≤ 89 := by
  unfold cursor_position_callback
  by_cases hp : s.mousePressed = true
  · simp only [hp, if_true]
    norm_num
    split_ifs <;> constructor <;> linarith
  · simp only [hp]
    exact h

theorem button_rotationX {F : Type} (s : OrbitState F) (b a mods : Int) (cx cy : F) :
    (mouse_button_callback s b a mods cx cy).rotationX = s.rotationX := by
  unfold mouse_button_callback
  split_ifs <;> rfl

theorem runEvents_rotationX_bounds {F : Type} [LinearOrderedField F]
    (events : List (PointerEvent F)) (s : OrbitState F)
    (h : -89 ≤ s.rotationX ∧ s.rotationX ≤ 89) :
    -89 ≤ (runEvents s events).rotationX ∧ (runEvents s events).rotationX ≤ 89 := by
  induction events generalizing s with
  | nil => exact h
  | cons e rest ih =>
    simp only [runEvents, List.foldl_cons]
    apply ih
    cases e with
    | button b a mods cx cy =>
      simp only [handleEvent, button_rotationX]
      exact h
    | move x y => exact cursor_rotationX_bounds s x y h

/-- C3: in every state reached from the initial orbit state by a finite sequence of
mouse-button and cursor-move events with arbitrary coordinates, `-89 ≤ rotationX ≤ 89`. -/
theorem rotationX_clamped {F : Type} [LinearOrderedField F] (events : List (PointerEvent F)) :
    -89 ≤ (runEvents (initialOrbit : OrbitState F) events).rotationX
      ∧ (runEvents (initialOrbit : OrbitState F) events).rotationX ≤ 89 := by
  apply runEvents_rotationX_bounds
  simp only [initialOrbit]
  constructor <;> norm_num

/-- C5: a cursor-move event received while `mousePressed` is false leaves the whole orbit
state (`rotationX`, `rotationY`, `lastMouseX`, `lastMouseY`, `mousePressed`) unchanged. -/
theorem cursor_idle_no_effect {F : Type} [LinearOrderedField F] (s : OrbitState F)
    (xpos ypos : F) (h : s.mousePressed = false) :
    cursor_position_callback s xpos ypos = s := by
  simp [cursor_position_callback, h]

/-- A cursor move before any button-down leaves the initial state as it is. -/
theorem cursor_idle_no_effect_witness :
    (initialOrbit : OrbitState ℚ).mousePressed = false
      ∧ cursor_position_callback (initialOrbit : OrbitState ℚ) 120 345 = initialOrbit :=
  ⟨rfl, cursor_idle_no_effect initialOrbit 120 345 rfl⟩

/-! ## The static meshes -/

theorem boxVertices_normals :
    List.map (vertexNormal boxVertices) (List.range 24)
      = [(0, 0, 1), (0, 0, 1), (0, 0, 1), (0, 0, 1),
         (0, 0, -1), (0, 0, -1), (0, 0, -1), (0, 0, -1),
         (-1, 0, 0), (-1, 0, 0), (-1, 0, 0), (-1, 0, 0),
         (1, 0, 0), (1, 0, 0), (1, 0, 0), (1, 0, 0),
         (0, 1, 0), (0, 1, 0), (0, 1, 0), (0, 1, 0),
         (0, -1, 0), (0, -1, 0), (0, -1, 0), (0, -1, 0)] := by
  simp only [List.range, List.range.loop, List.map, vertexNormal, boxVertices, List.getD_cons_succ,
    List.getD_cons_zero]
  norm_num

theorem boxFaceNormals_unit : ∀ n ∈ boxFaceNormals, dot n n = 1 := by
  simp only [boxFaceNormals, List.mem_cons, List.not_mem_nil, or_false]
  rintro n (rfl | rfl | rfl | rfl | rfl | rfl) <;> norm_num [dot]

theorem boxFaceNormals_nodup : boxFaceNormals.Nodup := by
  simp only [boxFaceNormals, List.nodup_cons, List.mem_cons, List.not_mem_nil, or_false,
    Prod.mk.injEq, List.nodup_nil]
  norm_num

/-- C7: the box mesh has 24 vertices and 36 indices, forming 12 triangles in 6 faces of
two triangles; the six indices of face `k` only reference vertices `4k .. 4k+3`; these four
vertices carry one normal, the `k`-th of `+Z, -Z, -X, +X, +Y, -Y`, which are six distinct
unit axis vectors. -/
theorem box_mesh_structure :
    boxVertices.length = 6 * 24 ∧ boxIndices.length = 36
      ∧ (triangles boxIndices).length = 12
      ∧ (∀ k j : Fin 6, 4 * (k : Nat) ≤ boxIndices.getD (6 * k + j) 0
          ∧ boxIndices.getD (6 * k + j) 0 ≤ 4 * (k : Nat) + 3)
      ∧ (∀ (k : Fin 6) (v : Fin 4),
          vertexNormal boxVertices (4 * k + v) = boxFaceNormals.getD k (0, 0, 0))
      ∧ boxFaceNormals
          = [(0, 0, 1), (0, 0, -1), (-1, 0, 0), (1, 0, 0), (0, 1, 0), (0, -1, 0)]
      ∧ boxFaceNormals.Nodup ∧ (∀ n ∈ boxFaceNormals, dot n n = 1) := by
  refine ⟨by simp [boxVertices], by decide, by decide, by decide, ?_, rfl,
    boxFaceNormals_nodup, boxFaceNormals_unit⟩
  intro k v
  have h := boxVertices_normals
  simp only [List.range, List.range.loop, List.map, List.cons.injEq, and_true] at h
  obtain ⟨h0, h1, h2, h3, h4, h5, h6, h7, h8, h9, h10, h11, h12, h13, h14, h15, h16, h17,
    h18, h19, h20, h21, h22, h23⟩ := h
  fin_cases k <;> fin_cases v <;> simp only [boxFaceNormals, List.getD_cons_zero,
    List.getD_cons_succ] <;> assumption

theorem rectVertices_normals :
    List.map (vertexNormal rectVertices) (List.range 4)
      = [(0, 0, 1), (0, 0, 1), (0, 0, 1), (0, 0, 1)] := by
  simp only [List.range, List.range.loop, List.map, vertexNormal, rectVertices,
    List.getD_cons_succ, List.getD_cons_zero]

theorem triangles_boxIndices :
    triangles boxIndices
      = [(0, 1, 2), (2, 3, 0), (4, 5, 6), (6, 7, 4), (8, 9, 10), (10, 11, 8),
         (12, 13, 14), (14, 15, 12), (16, 17, 18), (18, 19, 16), (20, 21, 22), (22, 23, 20)] :=
  rfl

theorem triangles_rectIndices : triangles rectIndices = [(0, 1, 2), (2, 3, 0)] := rfl

theorem windingDot_box :
    List.map (fun t => windingDot boxVertices t (vertexNormal boxVertices t.1))
        (triangles boxIndices)
      = [9 / 5, 9 / 5, -(9 / 5), -(9 / 5), -(27 / 25), -(27 / 25), 27 / 25, 27 / 25,
         3 / 5, 3 / 5, -(3 / 5), -(3 / 5)] := by
  simp only [triangles_boxIndices, List.map, windingDot, vertexNormal, vertexPos, boxVertices,
    List.getD_cons_succ, List.getD_cons_zero, dot, cross, vsub]
  norm_num

theorem windingDot_rect :
    List.map (fun t => windingDot rectVertices t (vertexNormal rectVertices t.1))
        (triangles rectIndices)
      = [-(4 / 125), -(4 / 125)] := by
  simp only [triangles_rectIndices, List.map, windingDot, vertexNormal, vertexPos, rectVertices,
    List.getD_cons_succ, List.getD_cons_zero, dot, cross, vsub]
  norm_num

/-- C8, as amended: in the static meshes the three vertices of every triangle carry one
normal, and `((pos b - pos a) × (pos c - pos a)) · normal` is strictly positive on the box
faces with normal `+Z`, `+X`, `+Y` and strictly negative on the box faces with normal `-Z`,
`-X`, `-Y` and on both triangles of the rect. -/
theorem static_mesh_winding :
    (∀ t ∈ triangles boxIndices,
        vertexNormal boxVertices t.2.1 = vertexNormal boxVertices t.1
          ∧ vertexNormal boxVertices t.2.2 = vertexNormal boxVertices t.1)
      ∧ (∀ t ∈ triangles rectIndices,
        vertexNormal rectVertices t.2.1 = vertexNormal rectVertices t.1
          ∧ vertexNormal rectVertices t.2.2 = vertexNormal rectVertices t.1)
      ∧ (∀ t ∈ triangles boxIndices,
        vertexNormal boxVertices t.1 ∈ [((0, 0, 1) : ℚ × ℚ × ℚ), (1, 0, 0), (0, 1, 0)] →
          0 < windingDot boxVertices t (vertexNormal boxVertices t.1))
      ∧ (∀ t ∈ triangles boxIndices,
        vertexNormal boxVertices t.1 ∈ [((0, 0, -1) : ℚ × ℚ × ℚ), (-1, 0, 0), (0, -1, 0)] →
          windingDot boxVertices t (vertexNormal boxVertices t.1) < 0)
      ∧ (∀ t ∈ triangles rectIndices,
          windingDot rectVertices t (vertexNormal rectVertices t.1) < 0) := by
  have hb := boxVertices_normals
  simp only [List.range, List.range.loop, List.map, List.cons.injEq, and_true] at hb
  obtain ⟨h0, h1, h2, h3, h4, h5, h6, h7, h8, h9, h10, h11, h12, h13, h14, h15, h16, h17,
    h18, h19, h20, h21, h22, h23⟩ := hb
  have hr := rectVertices_normals
  simp only [List.range, List.range.loop, List.map, List.cons.injEq, and_true] at hr
  obtain ⟨r0, r1, r2, r3⟩ := hr
  have hw := windingDot_box
  simp only [triangles_boxIndices, List.map, List.cons.injEq, and_true] at hw
  obtain ⟨w0, w1, w2, w3, w4, w5, w6, w7, w8, w9, w10, w11⟩ := hw
  have hv := windingDot_rect
  simp only [triangles_rectIndices, List.map, List.cons.injEq, and_true] at hv
  obtain ⟨v0, v1⟩ := hv
  simp only [triangles_boxIndices, triangles_rectIndices, List.mem_cons, List.not_mem_nil,
    or_false]
  refine ⟨?_, ?_, ?_, ?_, ?_⟩
  · rintro t (rfl | rfl | rfl | rfl | rfl | rfl | rfl | rfl | rfl | rfl | rfl | rfl) <;>
      simp only [h0, h1, h2, h3, h4, h5, h6, h7, h8, h9, h10, h11, h12, h13, h14, h15, h16,
        h17, h18, h19, h20, h21, h22, h23, and_self]
  · rintro t (rfl | rfl) <;> simp only [r0, r1, r2, r3, and_self]
  · rintro t (rfl | rfl | rfl | rfl | rfl | rfl | rfl | rfl | rfl | rfl | rfl | rfl) hn
    · rw [w0]; norm_num
    · rw [w1]; norm_num
    · rw [h4] at hn; norm_num at hn
    · rw [h6] at hn; norm_num at hn
    · rw [h8] at hn; norm_num at hn
    · rw [h10] at hn; norm_num at hn
    · rw [w6]; norm_num
    · rw [w7]; norm_num
    · rw [w8]; norm_num
    · rw [w9]; norm_num
    · rw [h20] at hn; norm_num at hn
    · rw [h22] at hn; norm_num at hn
  · rintro t (rfl | rfl | rfl | rfl | rfl | rfl | rfl | rfl | rfl | rfl | rfl | rfl) hn
    · rw [h0] at hn; norm_num at hn
    · rw [h2] at hn; norm_num at hn
    · rw [w2]; norm_num
    · rw [w3]; norm_num
    · rw [w4]; norm_num
    · rw [w5]; norm_num
    · rw [h12] at hn; norm_num at hn
    · rw [h14] at hn; norm_num at hn
    · rw [h16] at hn; norm_num at hn
    · rw [h18] at hn; norm_num at hn
    · rw [w10]; norm_num
    · rw [w11]; norm_num
  · rintro t (rfl | rfl)
    · rw [v0]; norm_num
    · rw [v1]; norm_num

/-- C8 as stated fails: triangle `(4, 5, 6)` of the box (face `-Z`) and triangle `(0, 1, 2)`
of the rect are wound clockwise with respect to the normal stored on their vertices. -/
theorem winding_counterexample :
    ((4, 5, 6) ∈ triangles boxIndices
        ∧ vertexNormal boxVertices 4 = (0, 0, -1)
        ∧ windingDot boxVertices (4, 5, 6) (vertexNormal boxVertices 4) = -(9 / 5)
        ∧ ¬ (0 < windingDot boxVertices (4, 5, 6) (vertexNormal boxVertices 4)))
      ∧ ((0, 1, 2) ∈ triangles rectIndices
        ∧ vertexNormal rectVertices 0 = (0, 0, 1)
        ∧ windingDot rectVertices (0, 1, 2) (vertexNormal rectVertices 0) = -(4 / 125)
        ∧ ¬ (0 < windingDot rectVertices (0, 1, 2) (vertexNormal rectVertices 0))) := by
  have hw := windingDot_box
  simp only [triangles_boxIndices, List.map, List.cons.injEq, and_true] at hw
  have hv := windingDot_rect
  simp only [triangles_rectIndices, List.map, List.cons.injEq, and_true] at hv
  have hb := boxVertices_normals
  simp only [List.range, List.range.loop, List.map, List.cons.injEq, and_true] at hb
  have hr := rectVertices_normals
  simp only [List.range, List.range.loop, List.map, List.cons.injEq, and_true] at hr
  refine ⟨⟨by simp [triangles_boxIndices], hb.2.2.2.2.1, hw.2.2.1, ?_⟩,
    ⟨by simp [triangles_rectIndices], hr.1, hv.1, ?_⟩⟩
  · rw [hw.2.2.1]; norm_num
  · rw [hv.1]; norm_num

/-! ## Rounding to nearest, ties to even -/

theorem roundNearestEven_sub_le {F : Type} [LinearOrderedField F] [FloorRing F] (q : F) :
    (roundNearestEven q : F) - q ≤ 1 / 2 ∧ q - (roundNearestEven q : F) ≤ 1 / 2 := by
  have h1 : (⌊q⌋ : F) ≤ q := Int.floor_le q
  have h2 : q < (⌊q⌋ : F) + 1 := Int.lt_floor_add_one q
  unfold roundNearestEven
  split_ifs with ha hb hc
  · constructor <;> linarith
  · push_cast
    constructor <;> linarith
  · have : q - (⌊q⌋ : F) = 1 / 2 := le_antisymm (not_lt.mp hb) (not_lt.mp ha)
    constructor <;> linarith
  · have : q - (⌊q⌋ : F) = 1 / 2 := le_antisymm (not_lt.mp hb) (not_lt.mp ha)
    push_cast
    constructor <;> linarith

theorem roundNearestEven_of_near {F : Type} [LinearOrderedField F] [FloorRing F] (q : F) (m : Int) (h1 : q - (m : F) < 1 / 2)
    (h2 : (m : F) - q < 1 / 2) : roundNearestEven q = m := by
  obtain ⟨ha, hb⟩ := roundNearestEven_sub_le q
  have h3 : ((roundNearestEven q - m : Int) : F) < 1 := by
    push_cast
    linarith
  have h4 : (-1 : F) < ((roundNearestEven q - m : Int) : F) := by
    push_cast
    linarith
  have h5 : roundNearestEven q - m < 1 := by exact_mod_cast h3
  have h6 : -1 < roundNearestEven q - m := by exact_mod_cast h4
  omega

theorem roundNearestEven_intCast {F : Type} [LinearOrderedField F] [FloorRing F] (m : Int) : roundNearestEven (m : F) = m :=
  roundNearestEven_of_near (m : F) m (by norm_num) (by norm_num)

theorem roundNearestEven_mono {F : Type} [LinearOrderedField F] [FloorRing F] {q r : F} (h : q ≤ r) : roundNearestEven q ≤ roundNearestEven r := by
  have hf : ⌊q⌋ ≤ ⌊r⌋ := Int.floor_mono h
  have hq1 : (⌊q⌋ : F) ≤ q := Int.floor_le q
  have hr1 : (⌊r⌋ : F) ≤ r := Int.floor_le r
  rcases lt_or_eq_of_le hf with hlt | heq
  · -- different floors
    have a1 : roundNearestEven q ≤ ⌊q⌋ + 1 := by
      unfold roundNearestEven
      split_ifs <;> omega
    have a2 : ⌊r⌋ ≤ roundNearestEven r := by
      unfold roundNearestEven
      split_ifs <;> omega
    omega
  · unfold roundNearestEven
    rw [← heq]
    split_ifs <;> first | omega | (exfalso; linarith)

theorem two_zpow_log_le {F : Type} [LinearOrderedField F] [FloorRing F] {a : F} (ha : 0 < a) : (2 : F) ^ Int.log 2 a ≤ a := by
  have h := Int.zpow_log_le_self (by norm_num : 1 < 2) ha
  simpa using h

theorem lt_two_zpow_log_succ {F : Type} [LinearOrderedField F] [FloorRing F] (a : F) : a < (2 : F) ^ (Int.log 2 a + 1) := by
  have h := Int.lt_zpow_succ_log_self (by norm_num : 1 < 2) a
  simpa using h

theorem log_two_eq {F : Type} [LinearOrderedField F] [FloorRing F] {a : F} (ha : 0 < a) (k : Int) (h1 : (2 : F) ^ k ≤ a)
    (h2 : a < (2 : F) ^ (k + 1)) : Int.log 2 a = k := by
  have h3 : k ≤ Int.log 2 a := by
    rw [← Int.zpow_le_iff_le_log (by norm_num : 1 < 2) ha]
    simpa using h1
  have h4 : Int.log 2 a < k + 1 := by
    rw [← Int.lt_zpow_iff_log_lt (by norm_num : 1 < 2) ha]
    simpa using h2
  omega

theorem scaled_range {F : Type} [LinearOrderedField F] [FloorRing F] (p : Nat) {a : F} (ha : 0 < a) :
    (2 : F) ^ ((p : Int) - 1) ≤ a / (2 : F) ^ ulpExponent p a
      ∧ a / (2 : F) ^ ulpExponent p a < (2 : F) ^ (p : Int) := by
  have h2 : (0 : F) < 2 := by norm_num
  have hpos : (0 : F) < (2 : F) ^ ulpExponent p a := zpow_pos h2 _
  have h1 := two_zpow_log_le ha
  have h3 := lt_two_zpow_log_succ a
  constructor
  · rw [le_div_iff₀ hpos, ← zpow_add₀ (ne_of_gt h2)]
    have : (p : Int) - 1 + ulpExponent p a = Int.log 2 a := by
      unfold ulpExponent
      ring
    rw [this]
    exact h1
  · rw [div_lt_iff₀ hpos, ← zpow_add₀ (ne_of_gt h2)]
    have : (p : Int) + ulpExponent p a = Int.log 2 a + 1 := by
      unfold ulpExponent
      ring
    rw [this]
    exact h3

theorem roundMagnitude_sub_le {F : Type} [LinearOrderedField F] [FloorRing F] (p : Nat) (a : F) :
    roundMagnitude p a - a ≤ (2 : F) ^ ulpExponent p a / 2
      ∧ a - roundMagnitude p a ≤ (2 : F) ^ ulpExponent p a / 2 := by
  have hpos : (0 : F) < (2 : F) ^ ulpExponent p a := zpow_pos (by norm_num) _
  obtain ⟨h1, h2⟩ := roundNearestEven_sub_le (a / (2 : F) ^ ulpExponent p a)
  have hne : (2 : F) ^ ulpExponent p a ≠ 0 := ne_of_gt hpos
  have e1 : roundMagnitude p a - a
      = ((roundNearestEven (a / (2 : F) ^ ulpExponent p a) : F)
          - a / (2 : F) ^ ulpExponent p a) * (2 : F) ^ ulpExponent p a := by
    unfold roundMagnitude
    rw [sub_mul, div_mul_cancel₀ _ hne]
  have e2 : a - roundMagnitude p a
      = (a / (2 : F) ^ ulpExponent p a
          - (roundNearestEven (a / (2 : F) ^ ulpExponent p a) : F))
        * (2 : F) ^ ulpExponent p a := by
    unfold roundMagnitude
    rw [sub_mul, div_mul_cancel₀ _ hne]
  constructor
  · rw [e1]
    calc _ ≤ 1 / 2 * (2 : F) ^ ulpExponent p a := mul_le_mul_of_nonneg_right h1 hpos.le
      _ = _ := by ring
  · rw [e2]
    calc _ ≤ 1 / 2 * (2 : F) ^ ulpExponent p a := mul_le_mul_of_nonneg_right h2 hpos.le
      _ = _ := by ring

theorem roundMagnitude_eq {F : Type} [LinearOrderedField F] [FloorRing F] (p : Nat) {a : F} (ha : 0 < a) (k : Int) (m : Int)
    (h1 : (2 : F) ^ k ≤ a) (h2 : a < (2 : F) ^ (k + 1))
    (h3 : a / (2 : F) ^ (k - ((p : Int) - 1)) - (m : F) < 1 / 2)
    (h4 : (m : F) - a / (2 : F) ^ (k - ((p : Int) - 1)) < 1 / 2) :
    roundMagnitude p a = (m : F) * (2 : F) ^ (k - ((p : Int) - 1)) := by
  have hk : Int.log 2 a = k := log_two_eq ha k h1 h2
  unfold roundMagnitude ulpExponent
  rw [hk, roundNearestEven_of_near _ m h3 h4]

theorem two_pow_cast {F : Type} [LinearOrderedField F] (n : Nat) : (((2 : Int) ^ n : Int) : F) = (2 : F) ^ (n : Int) := by
  push_cast
  rw [zpow_natCast]

theorem roundNearestEven_scaled {F : Type} [LinearOrderedField F] [FloorRing F] (n : Nat) {a : F} (ha : 0 < a) :
    (2 : Int) ^ n ≤ roundNearestEven (a / (2 : F) ^ ulpExponent (n + 1) a)
      ∧ roundNearestEven (a / (2 : F) ^ ulpExponent (n + 1) a) ≤ (2 : Int) ^ (n + 1) := by
  obtain ⟨h1, h2⟩ := scaled_range (n + 1) ha
  have e1 : (((n + 1 : Nat) : Int) - 1) = (n : Int) := by
    push_cast
    ring
  rw [e1, ← two_pow_cast] at h1
  rw [← two_pow_cast] at h2
  constructor
  · have := roundNearestEven_mono h1
    rwa [roundNearestEven_intCast] at this
  · have := roundNearestEven_mono h2.le
    rwa [roundNearestEven_intCast] at this

theorem roundMagnitude_bounds {F : Type} [LinearOrderedField F] [FloorRing F] (n : Nat) {a : F} (ha : 0 < a) :
    (2 : F) ^ Int.log 2 a ≤ roundMagnitude (n + 1) a
      ∧ roundMagnitude (n + 1) a ≤ (2 : F) ^ (Int.log 2 a + 1) := by
  have h2 : (0 : F) < 2 := by norm_num
  have hpos : (0 : F) < (2 : F) ^ ulpExponent (n + 1) a := zpow_pos h2 _
  obtain ⟨h1, h3⟩ := roundNearestEven_scaled n ha
  have c1 : ((2 : F) ^ (n : Int)) ≤ (roundNearestEven (a / (2 : F) ^ ulpExponent (n + 1) a) : F) := by
    rw [← two_pow_cast]
    exact_mod_cast h1
  have c2 : (roundNearestEven (a / (2 : F) ^ ulpExponent (n + 1) a) : F)
      ≤ (2 : F) ^ ((n + 1 : Nat) : Int) := by
    rw [← two_pow_cast]
    exact_mod_cast h3
  have e1 : (n : Int) + ulpExponent (n + 1) a = Int.log 2 a := by
    unfold ulpExponent
    push_cast
    ring
  have e2 : ((n + 1 : Nat) : Int) + ulpExponent (n + 1) a = Int.log 2 a + 1 := by
    unfold ulpExponent
    push_cast
    ring
  unfold roundMagnitude
  constructor
  · rw [← e1, zpow_add₀ (ne_of_gt h2)]
    exact mul_le_mul_of_nonneg_right c1 hpos.le
  · rw [← e2, zpow_add₀ (ne_of_gt h2)]
    exact mul_le_mul_of_nonneg_right c2 hpos.le

theorem roundMagnitude_pos {F : Type} [LinearOrderedField F] [FloorRing F] (n : Nat) {a : F} (ha : 0 < a) : 0 < roundMagnitude (n + 1) a :=
  lt_of_lt_of_le (zpow_pos (by norm_num) _) (roundMagnitude_bounds n ha).1

theorem roundMagnitude_mono {F : Type} [LinearOrderedField F] [FloorRing F] (n : Nat) {a b : F} (ha : 0 < a) (hab : a ≤ b) :
    roundMagnitude (n + 1) a ≤ roundMagnitude (n + 1) b := by
  have hb : 0 < b := lt_of_lt_of_le ha hab
  have hlog : Int.log 2 a ≤ Int.log 2 b := Int.log_mono_right ha hab
  rcases lt_or_eq_of_le hlog with hlt | heq
  · calc roundMagnitude (n + 1) a ≤ (2 : F) ^ (Int.log 2 a + 1) := (roundMagnitude_bounds n ha).2
      _ ≤ (2 : F) ^ Int.log 2 b := zpow_le_zpow_right₀ (by norm_num) (by omega)
      _ ≤ roundMagnitude (n + 1) b := (roundMagnitude_bounds n hb).1
  · have he : ulpExponent (n + 1) a = ulpExponent (n + 1) b := by
      unfold ulpExponent
      rw [heq]
    have hpos : (0 : F) < (2 : F) ^ ulpExponent (n + 1) b := zpow_pos (by norm_num) _
    unfold roundMagnitude
    rw [he]
    apply mul_le_mul_of_nonneg_right _ hpos.le
    have : a / (2 : F) ^ ulpExponent (n + 1) b ≤ b / (2 : F) ^ ulpExponent (n + 1) b :=
      div_le_div_of_nonneg_right hab hpos.le
    exact_mod_cast roundNearestEven_mono this

theorem roundMagnitude_representable {F : Type} [LinearOrderedField F] [FloorRing F] (n : Nat) (m e : Int) (h1 : (2 : Int) ^ n ≤ m)
    (h2 : m < (2 : Int) ^ (n + 1)) :
    roundMagnitude (n + 1) ((m : F) * (2 : F) ^ e) = (m : F) * (2 : F) ^ e := by
  have h2' : (0 : F) < 2 := by norm_num
  have hpos : (0 : F) < (2 : F) ^ e := zpow_pos h2' _
  have hm0 : 0 < m := lt_of_lt_of_le (by positivity) h1
  have hmF : (0 : F) < (m : F) := by exact_mod_cast hm0
  have c1 : (2 : F) ^ (n : Int) ≤ (m : F) := by
    rw [← two_pow_cast]
    exact_mod_cast h1
  have c2 : (m : F) < (2 : F) ^ ((n + 1 : Nat) : Int) := by
    rw [← two_pow_cast]
    exact_mod_cast h2
  have e0 : (n : Int) + e - (((n + 1 : Nat) : Int) - 1) = e := by
    push_cast
    ring
  have key := roundMagnitude_eq (n + 1) (mul_pos hmF hpos) ((n : Int) + e) m
    (by rw [zpow_add₀ (ne_of_gt h2')]; exact mul_le_mul_of_nonneg_right c1 hpos.le)
    (by
      have : (n : Int) + e + 1 = ((n + 1 : Nat) : Int) + e := by
        push_cast
        ring
      rw [this, zpow_add₀ (ne_of_gt h2')]
      exact mul_lt_mul_of_pos_right c2 hpos)
    (by rw [e0, mul_div_cancel_right₀ _ (ne_of_gt hpos)]; norm_num)
    (by rw [e0, mul_div_cancel_right₀ _ (ne_of_gt hpos)]; norm_num)
  rw [e0] at key
  exact key

theorem roundMagnitude_idem {F : Type} [LinearOrderedField F] [FloorRing F] (n : Nat) {a : F} (ha : 0 < a) :
    roundMagnitude (n + 1) (roundMagnitude (n + 1) a) = roundMagnitude (n + 1) a := by
  obtain ⟨h1, h3⟩ := roundNearestEven_scaled n ha
  rcases lt_or_eq_of_le h3 with hlt | heq
  · exact roundMagnitude_representable n _ _ h1 hlt
  · have hv : roundMagnitude (n + 1) a
        = (((2 : Int) ^ n : Int) : F) * (2 : F) ^ (ulpExponent (n + 1) a + 1) := by
      unfold roundMagnitude
      rw [heq, zpow_add₀ (by norm_num : (2 : F) ≠ 0)]
      push_cast
      ring
    rw [hv]
    exact roundMagnitude_representable n _ _ le_rfl
      (by rw [pow_succ]; have : (0 : Int) < 2 ^ n := by positivity
          omega)

theorem roundToPrecision_zero {F : Type} [LinearOrderedField F] [FloorRing F] (p : Nat) : roundToPrecision p (0 : F) = 0 := by
  simp [roundToPrecision]

theorem roundToPrecision_of_pos {F : Type} [LinearOrderedField F] [FloorRing F] (p : Nat) {x : F} (hx : 0 < x) :
    roundToPrecision p x = roundMagnitude p x := by
  simp [roundToPrecision, hx, ne_of_gt hx]

theorem roundToPrecision_of_neg {F : Type} [LinearOrderedField F] [FloorRing F] (p : Nat) {x : F} (hx : x < 0) :
    roundToPrecision p x = -roundMagnitude p (-x) := by
  simp [roundToPrecision, ne_of_lt hx, not_lt.mpr hx.le]

theorem roundToPrecision_neg {F : Type} [LinearOrderedField F] [FloorRing F] (p : Nat) (x : F) :
    roundToPrecision p (-x) = -roundToPrecision p x := by
  rcases lt_trichotomy x 0 with h | h | h
  · rw [roundToPrecision_of_neg p h, roundToPrecision_of_pos p (neg_pos.mpr h), neg_neg]
  · rw [h, neg_zero, roundToPrecision_zero, neg_zero]
  · rw [roundToPrecision_of_pos p h, roundToPrecision_of_neg p (neg_neg_of_pos h), neg_neg]

theorem roundToPrecision_pos {F : Type} [LinearOrderedField F] [FloorRing F] (n : Nat) {x : F} (hx : 0 < x) :
    0 < roundToPrecision (n + 1) x := by
  rw [roundToPrecision_of_pos _ hx]
  exact roundMagnitude_pos n hx

theorem roundToPrecision_eq_zero_iff {F : Type} [LinearOrderedField F] [FloorRing F] (n : Nat) (x : F) :
    roundToPrecision (n + 1) x = 0 ↔ x = 0 := by
  constructor
  · intro h
    rcases lt_trichotomy x 0 with hx | hx | hx
    · have := roundToPrecision_pos n (neg_pos.mpr hx)
      rw [roundToPrecision_neg, h] at this
      simp at this
    · exact hx
    · have := roundToPrecision_pos n hx
      rw [h] at this
      exact absurd this (lt_irrefl 0)
  · intro h
    rw [h, roundToPrecision_zero]

theorem roundToPrecision_mono {F : Type} [LinearOrderedField F] [FloorRing F] (n : Nat) : Monotone (roundToPrecision (n + 1) : F → F) := by
  intro x y hxy
  rcases lt_trichotomy x 0 with hx | hx | hx
  · rcases lt_trichotomy y 0 with hy | hy | hy
    · rw [roundToPrecision_of_neg _ hx, roundToPrecision_of_neg _ hy, neg_le_neg_iff]
      exact roundMagnitude_mono n (neg_pos.mpr hy) (neg_le_neg hxy)
    · rw [hy, roundToPrecision_zero, roundToPrecision_of_neg _ hx]
      exact (neg_neg_of_pos (roundMagnitude_pos n (neg_pos.mpr hx))).le
    · rw [roundToPrecision_of_neg _ hx]
      exact le_trans (neg_neg_of_pos (roundMagnitude_pos n (neg_pos.mpr hx))).le
        (roundToPrecision_pos n hy).le
  · rw [hx, roundToPrecision_zero]
    rcases lt_or_eq_of_le (hx ▸ hxy) with hy | hy
    · exact (roundToPrecision_pos n hy).le
    · rw [← hy, roundToPrecision_zero]
  · have hy : 0 < y := lt_of_lt_of_le hx hxy
    rw [roundToPrecision_of_pos _ hx, roundToPrecision_of_pos _ hy]
    exact roundMagnitude_mono n hx hxy

theorem roundToPrecision_idem {F : Type} [LinearOrderedField F] [FloorRing F] (n : Nat) (x : F) :
    roundToPrecision (n + 1) (roundToPrecision (n + 1) x) = roundToPrecision (n + 1) x := by
  rcases lt_trichotomy x 0 with hx | hx | hx
  · rw [roundToPrecision_of_neg _ hx, roundToPrecision_neg,
      roundToPrecision_of_pos _ (roundMagnitude_pos n (neg_pos.mpr hx)),
      roundMagnitude_idem n (neg_pos.mpr hx)]
  · rw [hx, roundToPrecision_zero, roundToPrecision_zero]
  · rw [roundToPrecision_of_pos _ hx, roundToPrecision_of_pos _ (roundMagnitude_pos n hx),
      roundMagnitude_idem n hx]

theorem roundToPrecision_representable {F : Type} [LinearOrderedField F] [FloorRing F] (n : Nat) (m e : Int) (h1 : (2 : Int) ^ n ≤ |m|)
    (h2 : |m| < (2 : Int) ^ (n + 1)) :
    roundToPrecision (n + 1) ((m : F) * (2 : F) ^ e) = (m : F) * (2 : F) ^ e := by
  have hpos : (0 : F) < (2 : F) ^ e := zpow_pos (by norm_num) _
  have hp : (0 : Int) < 2 ^ n := by positivity
  rcases le_or_lt 0 m with hm | hm
  · rw [abs_of_nonneg hm] at h1 h2
    have hmF : (0 : F) < (m : F) := by exact_mod_cast (lt_of_lt_of_le hp h1)
    rw [roundToPrecision_of_pos _ (mul_pos hmF hpos)]
    exact roundMagnitude_representable n m e h1 h2
  · rw [abs_of_neg hm] at h1 h2
    have hmF : (m : F) < 0 := by exact_mod_cast hm
    rw [roundToPrecision_of_neg _ (mul_neg_of_neg_of_pos hmF hpos)]
    have := @roundMagnitude_representable F _ _ n (-m) e h1 h2
    push_cast at this
    rw [← neg_mul, this]
    ring

theorem roundMagnitude_float_error {F : Type} [LinearOrderedField F] [FloorRing F] {a : F} (ha : 0 < a) (h : a ≤ 89) :
    roundMagnitude 24 a - a ≤ 1 / 262144 ∧ a - roundMagnitude 24 a ≤ 1 / 262144 := by
  have hlog : Int.log 2 a < 7 := by
    rw [← Int.lt_zpow_iff_log_lt (by norm_num : 1 < 2) ha]
    norm_num
    linarith
  have he : ulpExponent 24 a ≤ -17 := by
    unfold ulpExponent
    push_cast
    omega
  have hv : (2 : F) ^ (-17 : Int) = 1 / 131072 := by norm_num
  have hu : (2 : F) ^ ulpExponent 24 a ≤ 1 / 131072 := by
    rw [← hv]
    exact zpow_le_zpow_right₀ (by norm_num) he
  obtain ⟨h1, h2⟩ := roundMagnitude_sub_le 24 a
  constructor <;> linarith

theorem roundToPrecision_float_error {F : Type} [LinearOrderedField F] [FloorRing F] (x : F) (h : |x| ≤ 89) :
    |roundToPrecision 24 x - x| ≤ 1 / 262144 := by
  rw [abs_le] at h ⊢
  rcases lt_trichotomy x 0 with hx | hx | hx
  · rw [roundToPrecision_of_neg _ hx]
    obtain ⟨h1, h2⟩ := roundMagnitude_float_error (neg_pos.mpr hx) (by linarith)
    constructor <;> linarith
  · rw [hx, roundToPrecision_zero]
    norm_num
  · rw [roundToPrecision_of_pos _ hx]
    obtain ⟨h1, h2⟩ := roundMagnitude_float_error hx h.2
    constructor <;> linarith

theorem roundToPrecision_eq {F : Type} [LinearOrderedField F] [FloorRing F] (n : Nat) (x : F) (k m : Int) (h1 : (2 : F) ^ k ≤ |x|)
    (h2 : |x| < (2 : F) ^ (k + 1))
    (h3 : x / (2 : F) ^ (k - (n : Int)) - (m : F) < 1 / 2)
    (h4 : (m : F) - x / (2 : F) ^ (k - (n : Int)) < 1 / 2) :
    roundToPrecision (n + 1) x = (m : F) * (2 : F) ^ (k - (n : Int)) := by
  have e0 : k - (((n + 1 : Nat) : Int) - 1) = k - (n : Int) := by
    push_cast
    ring
  have hxa : 0 < |x| := lt_of_lt_of_le (zpow_pos (by norm_num) _) h1
  rcases lt_trichotomy x 0 with hx | hx | hx
  · rw [abs_of_neg hx] at h1 h2
    rw [roundToPrecision_of_neg _ hx,
      roundMagnitude_eq (n + 1) (neg_pos.mpr hx) k (-m) h1 h2
        (by rw [e0]; push_cast; rw [neg_div]; linarith)
        (by rw [e0]; push_cast; rw [neg_div]; linarith), e0]
    push_cast
    ring
  · rw [hx, abs_zero] at hxa
    exact absurd hxa (lt_irrefl 0)
  · rw [abs_of_pos hx] at h1 h2
    rw [roundToPrecision_of_pos _ hx,
      roundMagnitude_eq (n + 1) hx k m h1 h2 (by rw [e0]; exact h3) (by rw [e0]; exact h4), e0]
/-! ## IEEE rounding is faithful -/

theorem ieee_faithful {F : Type} [LinearOrderedField F] [FloorRing F] :
    (ieee : FloatArith F).Faithful where
  mono := roundToPrecision_mono 23
  idem := roundToPrecision_idem 23
  neg := roundToPrecision_neg 24
  fix89 := by
    have h := @roundToPrecision_representable F _ _ 23 11665408 (-17) (by norm_num) (by norm_num)
    have e : ((11665408 : Int) : F) * (2 : F) ^ (-17 : Int) = 89 := by norm_num
    rw [e] at h
    exact h
  err := roundToPrecision_float_error

theorem FloatArith.Faithful.zero {F : Type} [LinearOrderedField F] {A : FloatArith F}
    (hA : A.Faithful) : A.toFloat 0 = 0 := by
  have h := hA.neg 0
  rw [neg_zero] at h
  linarith

theorem FloatArith.Faithful.fixm89 {F : Type} [LinearOrderedField F] {A : FloatArith F}
    (hA : A.Faithful) : A.toFloat (-89) = -89 := by
  rw [hA.neg, hA.fix89]

theorem cursor_rounded_exact {F : Type} [LinearOrderedField F] (s : OrbitState F)
    (xpos ypos : F) :
    cursor_position_callback_rounded exactArith s xpos ypos
      = cursor_position_callback s xpos ypos := rfl

/-! ## The orbit controller: a drag in one direction -/

theorem cursor_rounded_pressed {F : Type} [LinearOrderedField F] (A : FloatArith F)
    (s : OrbitState F) (xpos ypos : F) (hp : s.mousePressed = true) :
    (cursor_position_callback_rounded A s xpos ypos).mousePressed = true
      ∧ (cursor_position_callback_rounded A s xpos ypos).lastMouseY = ypos
      ∧ (cursor_position_callback_rounded A s xpos ypos).rotationX
        = max (-89) (min 89 (A.toFloat (s.rotationX
            + A.toFloat (A.toFloat (A.toDouble (ypos - s.lastMouseY)) * A.toFloat 0.3)))) := by
  unfold cursor_position_callback_rounded
  simp only [hp, if_true, true_and]
  norm_num
  simp only [min_def, max_def]
  split_ifs <;> linarith

/-- The clamp bounds hold for every arithmetic: they only rest on the two comparisons. -/
theorem cursor_rounded_rotationX_bounds {F : Type} [LinearOrderedField F] (A : FloatArith F)
    (s : OrbitState F) (xpos ypos : F) (h : -89 ≤ s.rotationX ∧ s.rotationX ≤ 89) :
    -89 ≤ (cursor_position_callback_rounded A s xpos ypos).rotationX
      ∧ (cursor_position_callback_rounded A s xpos ypos).rotationX ≤ 89 := by
  by_cases hp : s.mousePressed = true
  · rw [(cursor_rounded_pressed A s xpos ypos hp).2.2]
    exact ⟨le_max_left _ _, max_le (by norm_num) (min_le_left _ _)⟩
  · simp only [cursor_position_callback_rounded, hp]
    exact h

theorem runMoves_cons {F : Type} [LinearOrderedField F] (A : FloatArith F) (s : OrbitState F)
    (p : F × F) (rest : List (F × F)) :
    runMoves A s (p :: rest) = runMoves A (cursor_position_callback_rounded A s p.1 p.2) rest :=
  rfl

/-- One clamped `float` addition of a non-negative increment. -/
theorem clamp_add_up {F : Type} [LinearOrderedField F] {A : FloatArith F} (hA : A.Faithful)
    (r inc : F) (hlo : -89 ≤ r) (hhi : r ≤ 89) (hfix : A.toFloat r = r) (hinc : 0 ≤ inc) :
    r ≤ max (-89) (min 89 (A.toFloat (r + inc)))
      ∧ min 89 (r + inc - 1 / 262144) ≤ max (-89) (min 89 (A.toFloat (r + inc)))
      ∧ max (-89) (min 89 (A.toFloat (r + inc))) ≤ 89
      ∧ A.toFloat (max (-89) (min 89 (A.toFloat (r + inc))))
          = max (-89) (min 89 (A.toFloat (r + inc))) := by
  have hv : r ≤ A.toFloat (r + inc) := by
    have := hA.mono (by linarith : r ≤ r + inc)
    rwa [hfix] at this
  have hmax : max (-89) (min 89 (A.toFloat (r + inc))) = min 89 (A.toFloat (r + inc)) :=
    max_eq_right (le_min (by norm_num) (by linarith))
  rw [hmax]
  refine ⟨le_min hhi hv, ?_, min_le_left _ _, ?_⟩
  · rcases le_or_lt 89 (r + inc) with h | h
    · have := hA.mono h
      rw [hA.fix89] at this
      rw [min_eq_left this]
      exact min_le_left _ _
    · have he := hA.err (r + inc) (abs_le.mpr ⟨by linarith, by linarith⟩)
      rw [abs_le] at he
      exact min_le_min le_rfl (by linarith [he.1])
  · rcases le_or_lt 89 (A.toFloat (r + inc)) with h | h
    · rw [min_eq_left h, hA.fix89]
    · rw [min_eq_right h.le, hA.idem]

theorem runMoves_up {F : Type} [LinearOrderedField F] {A : FloatArith F} (hA : A.Faithful)
    (moves : List (F × F)) (s : OrbitState F) (hp : s.mousePressed = true)
    (hlo : -89 ≤ s.rotationX) (hhi : s.rotationX ≤ 89) (hfix : A.toFloat s.rotationX = s.rotationX)
    (hd : ∀ d ∈ scaledYDeltas A s.lastMouseY moves, 0 ≤ d) :
    s.rotationX ≤ (runMoves A s moves).rotationX
      ∧ min 89 (s.rotationX + (scaledYDeltas A s.lastMouseY moves).sum
          - (moves.length : F) / 262144) ≤ (runMoves A s moves).rotationX
      ∧ (runMoves A s moves).rotationX ≤ 89 := by
  induction moves generalizing s with
  | nil =>
    simp only [runMoves, List.foldl_nil, scaledYDeltas, List.sum_nil, add_zero,
      List.length_nil, Nat.cast_zero, zero_div, sub_zero]
    exact ⟨le_rfl, min_le_right _ _, hhi⟩
  | cons p rest ih =>
    obtain ⟨h1, h2, h3⟩ := cursor_rounded_pressed A s p.1 p.2 hp
    simp only [scaledYDeltas, List.mem_cons, forall_eq_or_imp] at hd
    obtain ⟨hd0, hdr⟩ := hd
    obtain ⟨c1, c2, c3, c4⟩ := clamp_add_up hA s.rotationX _ hlo hhi hfix hd0
    rw [← h3] at c1 c2 c3 c4
    have hlo2 : -89 ≤ (cursor_position_callback_rounded A s p.1 p.2).rotationX := by linarith
    obtain ⟨i1, i2, i3⟩ := ih _ h1 hlo2 c3 c4 (by rw [h2]; exact hdr)
    rw [h2] at i2
    rw [runMoves_cons]
    simp only [scaledYDeltas, List.sum_cons, List.length_cons, Nat.cast_add, Nat.cast_one]
    refine ⟨le_trans c1 i1, ?_, i3⟩
    rcases le_or_lt 89 (s.rotationX
        + A.toFloat (A.toFloat (A.toDouble (p.2 - s.lastMouseY)) * A.toFloat 0.3)
        - 1 / 262144) with h | h
    · rw [min_eq_left h] at c2
      exact le_trans (min_le_left _ _) (le_trans c2 i1)
    · rw [min_eq_right h.le] at c2
      refine le_trans (min_le_min le_rfl ?_) i2
      have e : ((rest.length : F) + 1) / 262144 = (rest.length : F) / 262144 + 1 / 262144 := by
        ring
      rw [e]
      linarith

/-- One clamped `float` addition of a non-positive increment. -/
theorem clamp_add_down {F : Type} [LinearOrderedField F] {A : FloatArith F} (hA : A.Faithful)
    (r inc : F) (hlo : -89 ≤ r) (hhi : r ≤ 89) (hfix : A.toFloat r = r) (hinc : inc ≤ 0) :
    max (-89) (min 89 (A.toFloat (r + inc))) ≤ r
      ∧ max (-89) (min 89 (A.toFloat (r + inc))) ≤ max (-89) (r + inc + 1 / 262144)
      ∧ -89 ≤ max (-89) (min 89 (A.toFloat (r + inc)))
      ∧ A.toFloat (max (-89) (min 89 (A.toFloat (r + inc))))
          = max (-89) (min 89 (A.toFloat (r + inc))) := by
  have hv : A.toFloat (r + inc) ≤ r := by
    have := hA.mono (by linarith : r + inc ≤ r)
    rwa [hfix] at this
  have hmin : min 89 (A.toFloat (r + inc)) = A.toFloat (r + inc) :=
    min_eq_right (by linarith)
  rw [hmin]
  refine ⟨max_le hlo hv, ?_, le_max_left _ _, ?_⟩
  · rcases le_or_lt (r + inc) (-89) with h | h
    · have := hA.mono h
      rw [hA.fixm89] at this
      rw [max_eq_left this]
      exact le_max_left _ _
    · have he := hA.err (r + inc) (abs_le.mpr ⟨by linarith, by linarith⟩)
      rw [abs_le] at he
      exact max_le_max le_rfl (by linarith [he.2])
  · rcases le_or_lt (A.toFloat (r + inc)) (-89) with h | h
    · rw [max_eq_left h, hA.fixm89]
    · rw [max_eq_right h.le, hA.idem]

theorem list_sum_nonpos {F : Type} [LinearOrderedField F] (l : List F)
    (h : ∀ d ∈ l, d ≤ 0) : l.sum ≤ 0 := by
  induction l with
  | nil => simp
  | cons a l ih =>
    simp only [List.mem_cons, forall_eq_or_imp] at h
    rw [List.sum_cons]
    linarith [h.1, ih h.2]

theorem runMoves_down {F : Type} [LinearOrderedField F] {A : FloatArith F} (hA : A.Faithful)
    (moves : List (F × F)) (s : OrbitState F) (hp : s.mousePressed = true)
    (hlo : -89 ≤ s.rotationX) (hhi : s.rotationX ≤ 89) (hfix : A.toFloat s.rotationX = s.rotationX)
    (hd : ∀ d ∈ scaledYDeltas A s.lastMouseY moves, d ≤ 0) :
    (runMoves A s moves).rotationX ≤ s.rotationX
      ∧ (runMoves A s moves).rotationX
          ≤ max (-89) (s.rotationX + (scaledYDeltas A s.lastMouseY moves).sum
              + (moves.length : F) / 262144)
      ∧ -89 ≤ (runMoves A s moves).rotationX := by
  induction moves generalizing s with
  | nil =>
    simp only [runMoves, List.foldl_nil, scaledYDeltas, List.sum_nil, add_zero,
      List.length_nil, Nat.cast_zero, zero_div]
    exact ⟨le_rfl, le_max_right _ _, hlo⟩
  | cons p rest ih =>
    obtain ⟨h1, h2, h3⟩ := cursor_rounded_pressed A s p.1 p.2 hp
    simp only [scaledYDeltas, List.mem_cons, forall_eq_or_imp] at hd
    obtain ⟨hd0, hdr⟩ := hd
    obtain ⟨c1, c2, c3, c4⟩ := clamp_add_down hA s.rotationX _ hlo hhi hfix hd0
    rw [← h3] at c1 c2 c3 c4
    have hhi2 : (cursor_position_callback_rounded A s p.1 p.2).rotationX ≤ 89 := by linarith
    obtain ⟨i1, i2, i3⟩ := ih _ h1 c3 hhi2 c4 (by rw [h2]; exact hdr)
    rw [h2] at i2
    rw [runMoves_cons]
    simp only [scaledYDeltas, List.sum_cons, List.length_cons, Nat.cast_add, Nat.cast_one]
    refine ⟨le_trans i1 c1, ?_, i3⟩
    rcases le_or_lt (s.rotationX
        + A.toFloat (A.toFloat (A.toDouble (p.2 - s.lastMouseY)) * A.toFloat 0.3)
        + 1 / 262144) (-89) with h | h
    · rw [max_eq_left h] at c2
      exact le_trans (le_trans i1 c2) (le_max_left _ _)
    · rw [max_eq_right h.le] at c2
      refine le_trans i2 (max_le_max le_rfl ?_)
      have e : ((rest.length : F) + 1) / 262144 = (rest.length : F) / 262144 + 1 / 262144 := by
        ring
      rw [e]
      linarith

/-- C4, as amended: starting from `rotationX = 0` with the button held, every sequence of
`n` cursor moves whose scaled y-deltas `yoffset * sensitivity`, as the callback computes
them, are all non-negative and sum to at least `89 + n * 2^-18` leaves `rotationX = 89`, and
every sequence whose scaled y-deltas are all non-positive and sum to at most
`-89 - n * 2^-18` leaves `rotationX = -89`; this for every faithful rounding to `float`. -/
theorem one_way_drag_clamps {F : Type} [LinearOrderedField F] (A : FloatArith F)
    (hA : A.Faithful) (s : OrbitState F) (moves : List (F × F))
    (hp : s.mousePressed = true) (h0 : s.rotationX = 0) :
    ((∀ d ∈ scaledYDeltas A s.lastMouseY moves, 0 ≤ d) →
        89 + (moves.length : F) / 262144 ≤ (scaledYDeltas A s.lastMouseY moves).sum →
          (runMoves A s moves).rotationX = 89)
      ∧ ((∀ d ∈ scaledYDeltas A s.lastMouseY moves, d ≤ 0) →
        (scaledYDeltas A s.lastMouseY moves).sum ≤ -89 - (moves.length : F) / 262144 →
          (runMoves A s moves).rotationX = -89) := by
  have hlo : -89 ≤ s.rotationX := by rw [h0]; norm_num
  have hhi : s.rotationX ≤ 89 := by rw [h0]; norm_num
  have hfix : A.toFloat s.rotationX = s.rotationX := by rw [h0]; exact hA.zero
  constructor
  · intro hd hsum
    obtain ⟨_, i2, i3⟩ := runMoves_up hA moves s hp hlo hhi hfix hd
    rw [h0, min_eq_left (by linarith)] at i2
    exact le_antisymm i3 i2
  · intro hd hsum
    obtain ⟨_, i2, i3⟩ := runMoves_down hA moves s hp hlo hhi hfix hd
    rw [h0, max_eq_left (by linarith)] at i2
    exact le_antisymm i2 i3

/-! ## IEEE rounding at the values of the examples -/

theorem ieee_toFloat_exact {F : Type} [LinearOrderedField F] [FloorRing F] (m e : Int)
    (x : F) (hx : x = (m : F) * (2 : F) ^ e) (h1 : 8388608 ≤ |m|) (h2 : |m| < 16777216) :
    (ieee : FloatArith F).toFloat x = x := by
  rw [hx]
  exact roundToPrecision_representable 23 m e (by norm_num; exact h1) (by norm_num; exact h2)

theorem ieee_toDouble_exact {F : Type} [LinearOrderedField F] [FloorRing F] (m e : Int)
    (x : F) (hx : x = (m : F) * (2 : F) ^ e) (h1 : 4503599627370496 ≤ |m|)
    (h2 : |m| < 9007199254740992) :
    (ieee : FloatArith F).toDouble x = x := by
  rw [hx]
  exact roundToPrecision_representable 52 m e (by norm_num; exact h1) (by norm_num; exact h2)

theorem ieee_toFloat_eq {F : Type} [LinearOrderedField F] [FloorRing F] (k m : Int)
    (x y : F) (hy : y = (m : F) * (2 : F) ^ (k - 23)) (hx : 0 < x)
    (h1 : (2 : F) ^ k ≤ x) (h2 : x < (2 : F) ^ (k + 1))
    (h3 : x / (2 : F) ^ (k - 23) - (m : F) < 1 / 2)
    (h4 : (m : F) - x / (2 : F) ^ (k - 23) < 1 / 2) :
    (ieee : FloatArith F).toFloat x = y := by
  rw [hy]
  have := roundToPrecision_eq 23 x k m (by rwa [abs_of_pos hx]) (by rwa [abs_of_pos hx])
    (by push_cast; exact h3) (by push_cast; exact h4)
  push_cast at this
  exact this

theorem ieee_sensitivity {F : Type} [LinearOrderedField F] [FloorRing F] :
    (ieee : FloatArith F).toFloat 0.3 = 5033165 / 16777216 :=
  ieee_toFloat_eq (-2) 10066330 0.3 (5033165 / 16777216) (by norm_num) (by norm_num)
    (by norm_num) (by norm_num) (by norm_num) (by norm_num)

/-- The increment of a move by `+1024` pixels: `1024 * 0.3f`, which is exact. -/
theorem ieee_increment_1024 (y y0 : ℚ) (e0 : y - y0 = 1024) :
    (ieee : FloatArith ℚ).toFloat ((ieee : FloatArith ℚ).toFloat
        ((ieee : FloatArith ℚ).toDouble (y - y0)) * (ieee : FloatArith ℚ).toFloat 0.3)
      = 5033165 / 16384 := by
  rw [e0, ieee_toDouble_exact 4503599627370496 (-42) (1024 : ℚ) (by norm_num) (by decide)
      (by decide),
    ieee_toFloat_exact 8388608 (-13) (1024 : ℚ) (by norm_num) (by decide) (by decide),
    ieee_sensitivity]
  have e1 : (1024 : ℚ) * (5033165 / 16777216) = 5033165 / 16384 := by norm_num
  rw [e1]
  exact ieee_toFloat_exact 10066330 (-15) _ (by norm_num) (by decide) (by decide)

/-- The increment of a move by `10136233 / 32768` pixels: the product with `0.3f` rounds to
`1520435 / 16384`. -/
theorem ieee_increment_rest (y y0 : ℚ) (e0 : y - y0 = 10136233 / 32768) :
    (ieee : FloatArith ℚ).toFloat ((ieee : FloatArith ℚ).toFloat
        ((ieee : FloatArith ℚ).toDouble (y - y0)) * (ieee : FloatArith ℚ).toFloat 0.3)
      = 1520435 / 16384 := by
  rw [e0, ieee_toDouble_exact 5441848654954496 (-44) (10136233 / 32768 : ℚ) (by norm_num)
      (by decide) (by decide),
    ieee_toFloat_exact 10136233 (-15) (10136233 / 32768 : ℚ) (by norm_num) (by decide)
      (by decide),
    ieee_sensitivity]
  exact ieee_toFloat_eq 6 12163480 _ _ (by norm_num) (by norm_num) (by norm_num)
    (by norm_num) (by norm_num) (by norm_num)

/-- A downward drag from a button-down at `(0, 0)` in two moves, to `y = 1024` and to
`y = 43690665 / 32768`: the computed increments are `5033165 / 16384` and
`1520435 / 16384`, which sum to `+400`. -/
theorem one_way_drag_clamps_witness :
    (ieee : FloatArith ℚ).Faithful
      ∧ (dragStart 0 0).mousePressed = true
      ∧ (dragStart 0 0).rotationX = 0
      ∧ (∀ d ∈ scaledYDeltas ieee (dragStart 0 0).lastMouseY
            [(0, 1024), (0, 43690665 / 32768)], 0 ≤ d)
      ∧ (scaledYDeltas ieee (dragStart 0 0).lastMouseY
            [(0, 1024), (0, 43690665 / 32768)]).sum = 400
      ∧ 89 + (([((0 : ℚ), (1024 : ℚ)), (0, 43690665 / 32768)].length : ℕ) : ℚ) / 262144
          ≤ (scaledYDeltas ieee (dragStart 0 0).lastMouseY
              [(0, 1024), (0, 43690665 / 32768)]).sum
      ∧ (runMoves ieee (dragStart 0 0) [(0, 1024), (0, 43690665 / 32768)]).rotationX
          = 89 := by
  have hp : (dragStart 0 0).mousePressed = true := rfl
  have h0 : (dragStart 0 0).rotationX = 0 := rfl
  have hl : (dragStart 0 0).lastMouseY = 0 := rfl
  have hs : scaledYDeltas ieee (dragStart 0 0).lastMouseY [(0, 1024), (0, 43690665 / 32768)]
      = [5033165 / 16384, 1520435 / 16384] := by
    rw [hl]
    simp only [scaledYDeltas]
    rw [ieee_increment_1024 1024 0 (by norm_num),
      ieee_increment_rest (43690665 / 32768) 1024 (by norm_num)]
  have hd : ∀ d ∈ scaledYDeltas ieee (dragStart 0 0).lastMouseY
      [(0, 1024), (0, 43690665 / 32768)], 0 ≤ d := by
    rw [hs]
    simp only [List.mem_cons, List.not_mem_nil, or_false]
    rintro d (rfl | rfl) <;> norm_num
  have h400 : (scaledYDeltas ieee (dragStart 0 0).lastMouseY
      [(0, 1024), (0, 43690665 / 32768)]).sum = 400 := by
    rw [hs]
    norm_num
  have hsum : 89 + (([((0 : ℚ), (1024 : ℚ)), (0, 43690665 / 32768)].length : ℕ) : ℚ) / 262144
      ≤ (scaledYDeltas ieee (dragStart 0 0).lastMouseY
          [(0, 1024), (0, 43690665 / 32768)]).sum := by
    rw [h400]
    norm_num
  exact ⟨ieee_faithful, hp, h0, hd, h400, hsum,
    (one_way_drag_clamps ieee ieee_faithful (dragStart 0 0) _ hp h0).1 hd hsum⟩

theorem ieee_increment_neg (d : ℚ) :
    (ieee : FloatArith ℚ).toFloat ((ieee : FloatArith ℚ).toFloat
        ((ieee : FloatArith ℚ).toDouble (-d)) * (ieee : FloatArith ℚ).toFloat 0.3)
      = -(ieee : FloatArith ℚ).toFloat ((ieee : FloatArith ℚ).toFloat
        ((ieee : FloatArith ℚ).toDouble d) * (ieee : FloatArith ℚ).toFloat 0.3) := by
  have h1 : (ieee : FloatArith ℚ).toDouble (-d) = -(ieee : FloatArith ℚ).toDouble d :=
    roundToPrecision_neg 53 d
  rw [h1, ieee_faithful.neg, neg_mul, ieee_faithful.neg]

/-- The increment of a move by `+4096` pixels: `4096 * 0.3f`, which is exact. -/
theorem ieee_increment_4096 :
    (ieee : FloatArith ℚ).toFloat ((ieee : FloatArith ℚ).toFloat
        ((ieee : FloatArith ℚ).toDouble 4096) * (ieee : FloatArith ℚ).toFloat 0.3)
      = 5033165 / 4096 := by
  rw [ieee_toDouble_exact 4503599627370496 (-40) (4096 : ℚ) (by norm_num) (by decide)
      (by decide),
    ieee_toFloat_exact 8388608 (-11) (4096 : ℚ) (by norm_num) (by decide) (by decide),
    ieee_sensitivity]
  have e1 : (4096 : ℚ) * (5033165 / 16777216) = 5033165 / 4096 := by norm_num
  rw [e1]
  exact ieee_toFloat_exact 10066330 (-13) _ (by norm_num) (by decide) (by decide)

/-- The increment of a move by `11315883 / 4096` pixels: the product with `0.3f` rounds to
`3394765 / 4096`. -/
theorem ieee_increment_back :
    (ieee : FloatArith ℚ).toFloat ((ieee : FloatArith ℚ).toFloat
        ((ieee : FloatArith ℚ).toDouble (11315883 / 4096)) * (ieee : FloatArith ℚ).toFloat 0.3)
      = 3394765 / 4096 := by
  rw [ieee_toDouble_exact 6075168426295296 (-41) (11315883 / 4096 : ℚ) (by norm_num)
      (by decide) (by decide),
    ieee_toFloat_exact 11315883 (-12) (11315883 / 4096 : ℚ) (by norm_num) (by decide)
      (by decide),
    ieee_sensitivity]
  exact ieee_toFloat_eq 9 13579060 _ _ (by norm_num) (by norm_num) (by norm_num)
    (by norm_num) (by norm_num) (by norm_num)

/-- C4 as stated fails in binary32: from a button-down at `(0, 0)`, the moves to `y = 4096`
and then to `y = 5461333 / 4096` add `5033165 / 4096` and `-3394765 / 4096`, which sum to
`+400`, and end at `rotationX = -89`; the mirrored drag sums to `-400` and ends at `89`. -/
theorem drag_sum_counterexample :
    ((dragStart 0 0).mousePressed = true ∧ (dragStart 0 0).rotationX = 0
        ∧ scaledYDeltas ieee (dragStart 0 0).lastMouseY [(0, 4096), (0, 5461333 / 4096)]
          = [5033165 / 4096, -(3394765 / 4096)]
        ∧ (scaledYDeltas ieee (dragStart 0 0).lastMouseY
            [(0, 4096), (0, 5461333 / 4096)]).sum = 400
        ∧ (runMoves ieee (dragStart 0 0) [(0, 4096), (0, 5461333 / 4096)]).rotationX = -89
        ∧ (runMoves ieee (dragStart 0 0) [(0, 4096), (0, 5461333 / 4096)]).rotationX ≠ 89)
      ∧ (scaledYDeltas ieee (dragStart 0 0).lastMouseY [(0, -4096), (0, -(5461333 / 4096))]
          = [-(5033165 / 4096), 3394765 / 4096]
        ∧ (scaledYDeltas ieee (dragStart 0 0).lastMouseY
            [(0, -4096), (0, -(5461333 / 4096))]).sum = -400
        ∧ (runMoves ieee (dragStart 0 0) [(0, -4096), (0, -(5461333 / 4096))]).rotationX = 89
        ∧ (runMoves ieee (dragStart 0 0) [(0, -4096), (0, -(5461333 / 4096))]).rotationX
            ≠ -89) := by
  have hp : (dragStart 0 0).mousePressed = true := rfl
  have h0 : (dragStart 0 0).rotationX = 0 := rfl
  have hl : (dragStart 0 0).lastMouseY = 0 := rfl
  have d1 : (4096 : ℚ) - 0 = 4096 := by norm_num
  have d2 : (5461333 / 4096 : ℚ) - 4096 = -(11315883 / 4096) := by norm_num
  have d3 : (-4096 : ℚ) - 0 = -4096 := by norm_num
  have d4 : -(5461333 / 4096 : ℚ) - -4096 = 11315883 / 4096 := by norm_num
  have hs : scaledYDeltas ieee (dragStart 0 0).lastMouseY [(0, 4096), (0, 5461333 / 4096)]
      = [5033165 / 4096, -(3394765 / 4096)] := by
    rw [hl]
    simp only [scaledYDeltas]
    rw [d1, d2, ieee_increment_neg, ieee_increment_4096, ieee_increment_back]
  have ht : scaledYDeltas ieee (dragStart 0 0).lastMouseY
      [(0, -4096), (0, -(5461333 / 4096))] = [-(5033165 / 4096), 3394765 / 4096] := by
    rw [hl]
    simp only [scaledYDeltas]
    rw [d3, d4, ieee_increment_neg, ieee_increment_4096, ieee_increment_back]
  have r1 : (ieee : FloatArith ℚ).toFloat (0 + 5033165 / 4096) = 5033165 / 4096 := by
    rw [zero_add]
    exact ieee_toFloat_exact 10066330 (-13) _ (by norm_num) (by decide) (by decide)
  have r2 : (ieee : FloatArith ℚ).toFloat (89 + -(3394765 / 4096)) = -(3030221 / 4096) := by
    have e : (89 : ℚ) + -(3394765 / 4096) = -(3030221 / 4096) := by norm_num
    rw [e]
    exact ieee_toFloat_exact (-12120884) (-14) _ (by norm_num) (by decide) (by decide)
  have r3 : (ieee : FloatArith ℚ).toFloat (0 + -(5033165 / 4096)) = -(5033165 / 4096) := by
    rw [zero_add]
    exact ieee_toFloat_exact (-10066330) (-13) _ (by norm_num) (by decide) (by decide)
  have r4 : (ieee : FloatArith ℚ).toFloat (-89 + 3394765 / 4096) = 3030221 / 4096 := by
    have e : (-89 : ℚ) + 3394765 / 4096 = 3030221 / 4096 := by norm_num
    rw [e]
    exact ieee_toFloat_exact 12120884 (-14) _ (by norm_num) (by decide) (by decide)
  have f1 : (runMoves ieee (dragStart 0 0) [(0, 4096), (0, 5461333 / 4096)]).rotationX
      = -89 := by
    obtain ⟨a1, a2, a3⟩ := cursor_rounded_pressed ieee (dragStart 0 0) 0 4096 hp
    obtain ⟨b1, b2, b3⟩ := cursor_rounded_pressed ieee
      (cursor_position_callback_rounded ieee (dragStart 0 0) 0 4096) 0 (5461333 / 4096) a1
    rw [h0, hl, d1, ieee_increment_4096, r1] at a3
    have a4 : (cursor_position_callback_rounded ieee (dragStart 0 0) 0 4096).rotationX
        = 89 := by
      rw [a3]
      norm_num
    rw [a4, a2, d2, ieee_increment_neg, ieee_increment_back, r2] at b3
    rw [runMoves_cons, runMoves_cons]
    simp only [runMoves, List.foldl_nil]
    rw [b3]
    norm_num
  have f2 : (runMoves ieee (dragStart 0 0) [(0, -4096), (0, -(5461333 / 4096))]).rotationX
      = 89 := by
    obtain ⟨a1, a2, a3⟩ := cursor_rounded_pressed ieee (dragStart 0 0) 0 (-4096) hp
    obtain ⟨b1, b2, b3⟩ := cursor_rounded_pressed ieee
      (cursor_position_callback_rounded ieee (dragStart 0 0) 0 (-4096)) 0
      (-(5461333 / 4096)) a1
    rw [h0, hl, d3, ieee_increment_neg, ieee_increment_4096, r3] at a3
    have a4 : (cursor_position_callback_rounded ieee (dragStart 0 0) 0 (-4096)).rotationX
        = -89 := by
      rw [a3]
      norm_num
    rw [a4, a2, d4, ieee_increment_back, r4] at b3
    rw [runMoves_cons, runMoves_cons]
    simp only [runMoves, List.foldl_nil]
    rw [b3]
    norm_num
  refine ⟨⟨hp, h0, hs, ?_, f1, ?_⟩, ⟨ht, ?_, f2, ?_⟩⟩
  · rw [hs]
    norm_num
  · rw [f1]
    norm_num
  · rw [ht]
    norm_num
  · rw [f2]
    norm_num

/-! ## The pendulum angle -/

/-- The constant of `ieeeMath`: the binary32 number nearest to pi. -/
theorem ieee_pi : (ieee : FloatArith ℝ).toFloat Real.pi = 13176795 / 4194304 := by
  have h1 := Real.pi_gt_d20
  have h2 := Real.pi_lt_d20
  exact ieee_toFloat_eq 1 13176795 Real.pi (13176795 / 4194304) (by norm_num) Real.pi_pos
    (by norm_num; linarith) (by norm_num; linarith)
    (by norm_num at h2 ⊢; linarith) (by norm_num at h1 ⊢; linarith)

end ClockModel
